import Mathlib

/-!
# CodeSee map action: a shallow embedding of `map/src/action.js`

The action resolves a configuration from the process environment, checks out
the head ref, reads the event payload, and then runs the plan selected by the
`step` setting (`map`, `mapUpload`, `insights`, `legacy`).

Modelling choices.

* JavaScript values are the type `JSVal` (JSON values plus `undefined`).
  Numbers are modelled by the integers: the code only compares a number with
  zero and prints the pull request number.
* A value read from `process.env` is an `Option String` (`none` is
  `undefined`).
* Exceptions are explicit: a function that can throw returns `Except JSError`.
* Effects are explicit: an effectful function is an `Act`, a function from the
  trace of events so far to a result and the extended trace. The answers of the
  outside world (subprocess exit codes, file contents, `JSON.parse`,
  `JSON.stringify`, the working directory, the insights module) are the fields
  of a `World`, and may depend on the trace so far.
-/

namespace CodeseeAction

/-! ## JavaScript values and errors -/

/-- JavaScript exceptions, by constructor of the thrown object. -/
inductive JSError where
  | typeError (message : String)
  | syntaxError (message : String)
  | error (message : String)
  | external (message : String)
  deriving DecidableEq, Repr

/-- The `message` property of a thrown error. -/
def JSError.message : JSError → String
  | .typeError m => m
  | .syntaxError m => m
  | .error m => m
  | .external m => m

/-- JavaScript values that occur in the action: JSON values and `undefined`. -/
inductive JSVal where
  | undefined
  | null
  | bool (b : Bool)
  | num (n : Int)
  | str (s : String)
  | arr (xs : List JSVal)
  | obj (kvs : List (String × JSVal))
  deriving Inhabited, Repr

/-- Truthiness of a value (`ToBoolean`). -/
def JSVal.truthy : JSVal → Bool
  | .undefined => false
  | .null => false
  | .bool b => b
  | .num n => decide (n ≠ 0)
  | .str s => decide (s ≠ "")
  | .arr _ => true
  | .obj _ => true

/-- Own property of an object literal, `undefined` when the key is missing. -/
def lookupKey (k : String) : List (String × JSVal) → JSVal
  | [] => .undefined
  | (k', v) :: rest => if k' = k then v else lookupKey k rest

/-- Length of a string in UTF-16 code units (the `length` of a JS string). -/
def utf16Length (s : String) : Nat :=
  (s.data.map (fun c => if c.val < 0x10000 then 1 else 2)).sum

/-- Property read `v.k`. Reading a property of `undefined` or `null` throws a
`TypeError`; arrays and strings have a `length`; every other property the
action reads (`pull_request`, `head`, `repo`, `fork`, `base`, `sha`, `number`,
`python`, `insightsDisabled`, `insights`) is an own property or `undefined`. -/
def JSVal.getProp (v : JSVal) (k : String) : Except JSError JSVal :=
  match v with
  | .undefined =>
      .error (.typeError ("Cannot read properties of undefined (reading " ++ k ++ ")"))
  | .null =>
      .error (.typeError ("Cannot read properties of null (reading " ++ k ++ ")"))
  | .bool _ => .ok .undefined
  | .num _ => .ok .undefined
  | .str s => if k = "length" then .ok (.num (utf16Length s)) else .ok .undefined
  | .arr xs => if k = "length" then .ok (.num xs.length) else .ok .undefined
  | .obj kvs => .ok (lookupKey k kvs)

/-- Strict equality `v === n` with a number literal. -/
def JSVal.strictEqNum (v : JSVal) (n : Int) : Bool :=
  match v with
  | .num m => decide (m = n)
  | _ => false

/-- Strict equality `v === s` with a string literal. -/
def JSVal.strictEqStr (v : JSVal) (s : String) : Bool :=
  match v with
  | .str t => decide (t = s)
  | _ => false

/-- A string or `undefined` as a value. -/
def optStr : Option String → JSVal
  | some s => .str s
  | none => .undefined

/-- Truthiness of a string or `undefined`: set and not empty. -/
def strTruthy : Option String → Bool
  | some s => decide (s ≠ "")
  | none => false

/-- The operator `a || b` on strings or `undefined`. -/
def jsOr (a b : Option String) : Option String :=
  if strTruthy a then a else b

/-- String conversion of a string or `undefined`, as in `a + "/"` and in
template literals. -/
def jsStr : Option String → String
  | some s => s
  | none => "undefined"

/-- Method call `v.toString()`. On `undefined` and `null` the property read
throws; on arrays and objects the result is left to `objToString`. -/
def JSVal.toStringCall (objToString : JSVal → Except JSError String) (v : JSVal) :
    Except JSError String :=
  match v with
  | .undefined =>
      .error (.typeError "Cannot read properties of undefined (reading toString)")
  | .null =>
      .error (.typeError "Cannot read properties of null (reading toString)")
  | .bool b => .ok (if b then "true" else "false")
  | .num n => .ok (toString n)
  | .str s => .ok s
  | .arr xs => objToString (.arr xs)
  | .obj kvs => objToString (.obj kvs)

/-! ## Configuration -/

/-- The process environment, `process.env`. -/
abbrev Env := String → Option String

/-- The configuration record returned by `getConfig`. -/
structure Config where
  apiToken : Option String
  webpackConfigPath : Option String
  supportTypescript : Bool
  repoFullName : Option String
  githubOrigin : Option String
  repoOrigin : String
  githubBaseRef : Option String
  githubRef : Option String
  skipUpload : Bool
  languages : JSVal
  eventDataPath : Option String
  eventName : Option String
  codeseeUrl : Option String
  step : String

/-- Source `getBooleanInput`: true for exactly three spellings. -/
def getBooleanInput (env : Env) (paramName : String) : Bool :=
  decide (env paramName ∈ [some "true", some "True", some "TRUE"])

/-- Source `getConfig`. `parse` is `JSON.parse`; `insightsGetConfig` stands for
the spread of `insightsAction.getConfig()` at the end of the record, which may
replace fields. -/
def getConfig (parse : String → Except JSError JSVal)
    (insightsGetConfig : Config → Config) (env : Env) : Except JSError Config := do
  let apiToken := env "api_token"
  let webpackConfigPath := env "webpack_config_path"
  let supportTypescript := getBooleanInput env "support_typescript"
  let skipUpload := getBooleanInput env "skip_upload"
  let step := (jsOr (env "step") (some "legacy")).getD "legacy"
  let languagesEnv := env "languages"
  let languages ←
    if strTruthy languagesEnv then parse (languagesEnv.getD "") else pure (JSVal.str "\x7b\x7d")
  let eventDataPath := jsOr (env "with_event_data") (env "GITHUB_EVENT_PATH")
  let eventName := jsOr (env "with_event_name") (env "GITHUB_EVENT_NAME")
  let codeseeUrl := env "codesee_url"
  let repoFullName := env "GITHUB_REPOSITORY"
  let githubOrigin := env "GITHUB_SERVER_URL"
  let repoOrigin := jsStr githubOrigin ++ "/" ++ jsStr repoFullName
  let githubRef := jsOr (env "GITHUB_HEAD_REF") (env "github_ref")
  let githubBaseRef := env "GITHUB_BASE_REF"
  pure (insightsGetConfig
    { apiToken := apiToken
      webpackConfigPath := if webpackConfigPath = some "__NULL__" then none else webpackConfigPath
      supportTypescript := supportTypescript
      repoFullName := repoFullName
      githubOrigin := githubOrigin
      repoOrigin := repoOrigin
      githubBaseRef := githubBaseRef
      githubRef := githubRef
      skipUpload := skipUpload
      languages := languages
      eventDataPath := eventDataPath
      eventName := eventName
      codeseeUrl := codeseeUrl
      step := step })

/-! ## Event classification and the security gate -/

/-- Source `isPullRequestEvent`. -/
def isPullRequestEvent (githubEventName : Option String) : Bool :=
  decide (githubEventName = some "pull_request") ||
    decide (githubEventName = some "pull_request_target")

/-- Source `isForkedPullRequestEvent`: the value of
`isPullRequestEvent(name) && data.pull_request.head.repo.fork`. -/
def isForkedPullRequestEvent (githubEventName : Option String) (githubEventData : JSVal) :
    Except JSError JSVal :=
  if isPullRequestEvent githubEventName then do
    let pr ← githubEventData.getProp "pull_request"
    let head ← pr.getProp "head"
    let repo ← head.getProp "repo"
    repo.getProp "fork"
  else
    pure (.bool false)

/-- Source `isInsecureConfiguration`: the value of
`config.apiToken && config.languages.python`. -/
def isInsecureConfiguration (config : Config) : Except JSError JSVal :=
  if strTruthy config.apiToken then config.languages.getProp "python"
  else pure (optStr config.apiToken)

/-! ## Effects -/

/-- Observable events of a run, in the order they happen. -/
inductive Event where
  | setSecret (name : String)
  | startGroup (name : String)
  | endGroup
  | debug (message : String)
  | debugConfig
  | info (message : String)
  | warning (message : String)
  | error (message : String)
  | exec (commandLine : String) (args : List JSVal)
  | readFile (path : Option String)
  | insightsRun

/-- The events so far, oldest first. -/
abbrev Trace := List Event

/-- The outside world: what subprocesses, the file system, the JSON library,
the process and the insights module answer. -/
structure World where
  exec : Trace → String → List JSVal → Except JSError Int
  readFile : Trace → Option String → Except JSError String
  parse : String → Except JSError JSVal
  stringify : JSVal → String
  objToString : JSVal → Except JSError String
  cwd : String
  insightsGetConfig : Config → Config
  insightsRun : Trace → Config → Except JSError Unit

/-- An effectful computation: from the trace so far to a result (or a thrown
error) and the extended trace. -/
def Act (α : Type) : Type := Trace → Except JSError α × Trace

/-- Return a value, no event. -/
def Act.pure {α : Type} (a : α) : Act α := fun t => (.ok a, t)

/-- Sequencing; a thrown error skips the rest. -/
def Act.bind {α β : Type} (x : Act α) (f : α → Act β) : Act β := fun t =>
  match x t with
  | (.ok a, t') => f a t'
  | (.error e, t') => (.error e, t')

instance : Monad Act where
  pure := Act.pure
  bind := Act.bind

/-- The statement `throw e`. -/
def Act.throw {α : Type} (e : JSError) : Act α := fun t => (.error e, t)

/-- The statement `try body catch (e) handler`. -/
def Act.tryCatch {α : Type} (body : Act α) (handler : JSError → Act α) : Act α := fun t =>
  match body t with
  | (.ok a, t') => (.ok a, t')
  | (.error e, t') => handler e t'

/-- The statement `try body finally fin`. -/
def Act.tryFinally {α : Type} (body : Act α) (fin : Act Unit) : Act α := fun t =>
  match body t with
  | (r, t') =>
    match fin t' with
    | (.ok _, t'') => (r, t'')
    | (.error e, t'') => (.error e, t'')

/-- A pure computation that can throw. -/
def Act.lift {α : Type} (r : Except JSError α) : Act α := fun t => (r, t)

/-- Record one event. -/
def emit (e : Event) : Act Unit := fun t => (.ok (), t ++ [e])

/-- Library `exec.exec(commandLine, args)`: the call is recorded, the world
answers with an exit code or an error. -/
def execCall (w : World) (commandLine : String) (args : List JSVal) : Act Int := fun t =>
  (w.exec t commandLine args, t ++ [Event.exec commandLine args])

/-- Source `readFile` and `fs.promises.readFile`. -/
def readFile (w : World) (filePath : Option String) : Act String := fun t =>
  (w.readFile t filePath, t ++ [Event.readFile filePath])

/-- Library `core.group(name, fn)`: the group is closed also when `fn` throws. -/
def group {α : Type} (name : String) (fn : Act α) : Act α := do
  emit (.startGroup name)
  Act.tryFinally fn (emit .endGroup)

/-- Source `setupEnv`. -/
def setupEnv : Act Unit := emit (.setSecret "api_token")

/-! ## Subprocess invocations -/

/-- The warning `needsInsights` logs when reading the metadata throws `e`. -/
def metadataWarning (e : JSError) : Event :=
  .warning ("\n\n Unable to read metadata for repo, assuming we need insights: " ++ e.message)

/-- Source constant `INSIGHTS_DISABLED`. -/
def INSIGHTS_DISABLED : String := "Insights Disabled"

/-- The argument list built by `needsInsights`. -/
def needsInsightsArgs (config : Config) : List JSVal :=
  [.str "codesee@latest", .str "metadata", .str "--repo", .str config.repoOrigin,
   .str "-a", optStr config.apiToken, .str "-o", .str "codesee.metadata.json"]
  ++ (if strTruthy config.codeseeUrl then [.str "--url", optStr config.codeseeUrl] else [])

/-- Source `needsInsights`: `true`, `false` or the string `INSIGHTS_DISABLED`. -/
def needsInsights (w : World) (config : Config) : Act JSVal := do
  let runExitCode ← execCall w "npx" (needsInsightsArgs config)
  if runExitCode ≠ 0 then
    pure (.bool true)
  else
    Act.tryCatch
      (do
        let text ← readFile w (some "codesee.metadata.json")
        let output ← Act.lift (w.parse text)
        let disabled ← Act.lift (output.getProp "insightsDisabled")
        if disabled.truthy then
          pure (.str INSIGHTS_DISABLED)
        else do
          let insights ← Act.lift (output.getProp "insights")
          let len ← Act.lift (insights.getProp "length")
          pure (.bool (len.strictEqNum 0)))
      (fun e => do
        emit (metadataWarning e)
        pure (.bool true))

/-- Source `checkoutHeadRef`. -/
def checkoutHeadRef (w : World) (config : Config) : Act Unit := do
  let runExitCode ← execCall w "git" [.str "checkout", optStr config.githubRef]
  if runExitCode ≠ 0 then
    Act.throw (.error ("git checkout " ++ jsStr config.githubRef
      ++ " failed with exit code " ++ toString runExitCode))
  else
    pure ()

/-- Source `getEventData`: the parsed event file, or `{}` when reading or
parsing throws. -/
def getEventData (w : World) (githubEventName : Option String)
    (eventDataPath : Option String) : Act (Option String × JSVal) := do
  let githubEventData ← Act.tryCatch
    (do
      let text ← readFile w eventDataPath
      Act.lift (w.parse text))
    (fun _ => pure (JSVal.obj []))
  pure (githubEventName, githubEventData)

/-- The argument list built by `runCodeseeMap`. -/
def runCodeseeMapArgs (w : World) (config : Config) (excludeLangs : List String) :
    List String :=
  ["codesee@latest", "map", "-o", "codesee.map.json"]
  ++ (if excludeLangs.length > 0 then ["-x", ",".intercalate excludeLangs] else [])
  ++ (if strTruthy config.webpackConfigPath then ["-w", jsStr config.webpackConfigPath] else [])
  ++ (if config.supportTypescript then ["--typescript"] else [])
  ++ (if strTruthy config.apiToken then ["-a", jsStr config.apiToken] else [])
  ++ (if config.languages.truthy then ["--languages", w.stringify config.languages] else [])
  ++ (if strTruthy config.codeseeUrl then ["--url", jsStr config.codeseeUrl] else [])
  ++ ["--repo", config.repoOrigin]
  ++ [w.cwd]

/-- Source `runCodeseeMap`. -/
def runCodeseeMap (w : World) (config : Config) (excludeLangs : List String) : Act Int :=
  execCall w "npx" ((runCodeseeMapArgs w config excludeLangs).map JSVal.str)

/-- The argument list built by `runCodeseeMapUpload`; reading the payload of a
pull request event can throw. -/
def runCodeseeMapUploadArgs (w : World) (config : Config) (githubEventName : Option String)
    (githubEventData : JSVal) : Except JSError (List JSVal) := do
  let additionalArguments : List JSVal :=
    if strTruthy config.githubRef then [.str "-f", optStr config.githubRef] else []
  let additionalArguments ←
    if isPullRequestEvent githubEventName then do
      let pr ← githubEventData.getProp "pull_request"
      let base ← pr.getProp "base"
      let sha ← base.getProp "sha"
      let number ← githubEventData.getProp "number"
      let numberString ← number.toStringCall w.objToString
      pure (additionalArguments
        ++ [.str "-b", optStr config.githubBaseRef]
        ++ [.str "-s", sha]
        ++ [.str "-p", .str numberString])
    else
      pure additionalArguments
  let args : List JSVal :=
    [.str "codesee@latest", .str "upload", .str "--type", .str "map",
     .str "--repo", .str config.repoOrigin, .str "-a", optStr config.apiToken]
    ++ additionalArguments
    ++ [.str "codesee.map.json"]
  pure (args ++
    (if strTruthy config.codeseeUrl then [.str "--url", optStr config.codeseeUrl] else []))

/-- Source `runCodeseeMapUpload`. -/
def runCodeseeMapUpload (w : World) (config : Config) (githubEventName : Option String)
    (githubEventData : JSVal) : Act Int := do
  let args ← Act.lift (runCodeseeMapUploadArgs w config githubEventName githubEventData)
  execCall w "npx" args

/-! ## Steps -/

/-- The value returned by `setup` and handed to every step. -/
structure Data where
  config : Config
  githubEventName : Option String
  githubEventData : JSVal

/-- Source `setup`. -/
def setup (w : World) (env : Env) : Act Data := do
  emit (.startGroup "Setup")
  setupEnv
  let config ← Act.lift (getConfig w.parse w.insightsGetConfig env)
  emit (.debug "CONFIG: ")
  emit .debugConfig
  group "Checkout HEAD Ref" (checkoutHeadRef w config)
  let event ← getEventData w config.eventName config.eventDataPath
  emit .endGroup
  pure { config := config, githubEventName := event.1, githubEventData := event.2 }

/-- Source `generate`. -/
def generate (w : World) (data : Data) : Act Unit := do
  let _ ← group "Generate Map Data" (do
    let forked ← Act.lift (isForkedPullRequestEvent data.githubEventName data.githubEventData)
    let insecure ← (if forked.truthy then Act.lift (isInsecureConfiguration data.config)
                    else pure forked)
    if insecure.truthy then do
      emit (.info "Detected Forked PR with potential insecure configuration, disabling python")
      emit (.info "Consider updating your workflow to the latest version from CodeSee.")
      runCodeseeMap w data.config ["python"]
    else do
      (if isPullRequestEvent data.githubEventName then
        emit (.info "Detected no insecure configuration, allowing all languages")
       else pure ())
      runCodeseeMap w data.config [])
  pure ()

/-- Source `upload`. -/
def upload (w : World) (data : Data) : Act Unit := do
  if data.config.skipUpload then
    emit (.info "Skipping map upload")
  else do
    let _ ← group "Upload Map to Codesee Server"
      (runCodeseeMapUpload w data.config data.githubEventName data.githubEventData)
    pure ()

/-- Source `insights`; `insightsAction.run` is an event answered by the world. -/
def insights (w : World) (data : Data) : Act Unit := do
  if isPullRequestEvent data.githubEventName then
    emit (.info "Running on a pull request so skipping insight collection")
  else do
    let insightsNeeded ← needsInsights w data.config
    if insightsNeeded.strictEqStr INSIGHTS_DISABLED then
      pure ()
    else
      fun t => (w.insightsRun t data.config, t ++ [Event.insightsRun])

/-- The warning text of `requireApiToken`. -/
def apiTokenWarning : String :=
  "\n\n===============================\nError accessing your API Token.\nPlease make sure the CODESEE_ARCH_DIAG_API_TOKEN is set correctly in your *repository* secrets (not environment secrets).\nIf you need a new API Token, please go to app.codesee.io/maps and create a new map.\nThis will generate a new token for you.\n===============================\n\n"

/-- Source `requireApiToken`. -/
def requireApiToken (data : Data) : Act Unit := do
  if !strTruthy data.config.apiToken then
    emit (.warning apiTokenWarning)
    Act.throw (.error "Api Token Required to continue")
  else
    pure ()

/-- The step functions that `main` puts in its table. -/
inductive StepFunc where
  | generate
  | requireApiToken
  | upload
  | insights
  deriving DecidableEq, Repr

/-- The `name` of a step function. -/
def StepFunc.name : StepFunc → String
  | .generate => "generate"
  | .requireApiToken => "requireApiToken"
  | .upload => "upload"
  | .insights => "insights"

/-- Calling a step function. -/
def StepFunc.run (w : World) : StepFunc → Data → Act Unit
  | .generate => CodeseeAction.generate w
  | .requireApiToken => CodeseeAction.requireApiToken
  | .upload => CodeseeAction.upload w
  | .insights => CodeseeAction.insights w

/-- The table `stepMap` of `main`, in insertion order. -/
def stepMap : List (String × List StepFunc) :=
  [("map", [.generate]),
   ("mapUpload", [.requireApiToken, .upload]),
   ("insights", [.requireApiToken, .insights]),
   ("legacy", [.requireApiToken, .generate, .upload, .insights])]

/-- The loop of `main` over the step functions of the chosen plan. -/
def runSteps (w : World) (data : Data) : List StepFunc → Act Unit
  | [] => pure ()
  | stepFunc :: rest => do
    emit (.info ("Running step " ++ stepFunc.name))
    stepFunc.run w data
    runSteps w data rest

/-- Source `main`. -/
def main (w : World) (env : Env) : Act Unit := do
  let data ← setup w env
  let step := data.config.step
  match stepMap.lookup step with
  | none =>
    emit (.error ("Unable to find run configuration for " ++ step ++ ". Should be one of "
      ++ ", ".intercalate (stepMap.map Prod.fst)))
  | some plan => runSteps w data plan

/-! ## Reading a trace -/

/-- The subprocess calls of a trace: command and arguments, in order. -/
def execCalls : Trace → List (String × List JSVal)
  | [] => []
  | .exec c a :: rest => (c, a) :: execCalls rest
  | _ :: rest => execCalls rest

/-- The step functions started in a trace, by the name logged when `main`
starts one. -/
def stepsStarted : Trace → List String
  | [] => []
  | .info m :: rest =>
    if m = "Running step generate" then "generate" :: stepsStarted rest
    else if m = "Running step requireApiToken" then "requireApiToken" :: stepsStarted rest
    else if m = "Running step upload" then "upload" :: stepsStarted rest
    else if m = "Running step insights" then "insights" :: stepsStarted rest
    else stepsStarted rest
  | _ :: rest => stepsStarted rest

/-- The events of a `setup` that completes: the only subprocess call is the
checkout of the head ref. -/
def setupTrace (config : Config) : Trace :=
  [.startGroup "Setup", .setSecret "api_token", .debug "CONFIG: ", .debugConfig,
   .startGroup "Checkout HEAD Ref", .exec "git" [.str "checkout", optStr config.githubRef],
   .endGroup, .readFile config.eventDataPath, .endGroup]

/-- The values that `runCodeseeMap` passes next to its flags: the joined
exclusion list, the bundler configuration path, the credential, the language
filter, the service URL, the repository origin and the working directory,
each only when it is passed. -/
def argValues (w : World) (config : Config) (excludeLangs : List String) : List String :=
  (if excludeLangs.length > 0 then [",".intercalate excludeLangs] else [])
  ++ (if strTruthy config.webpackConfigPath then [jsStr config.webpackConfigPath] else [])
  ++ (if strTruthy config.apiToken then [jsStr config.apiToken] else [])
  ++ (if config.languages.truthy then [w.stringify config.languages] else [])
  ++ (if strTruthy config.codeseeUrl then [jsStr config.codeseeUrl] else [])
  ++ [config.repoOrigin, w.cwd]

/-- The arguments of `runCodeseeMapUpload` that do not depend on the event: the
upload subcommand with the repository origin and the credential, then the
head ref when one is set. -/
def uploadHead (config : Config) : List JSVal :=
  [.str "codesee@latest", .str "upload", .str "--type", .str "map",
   .str "--repo", .str config.repoOrigin, .str "-a", optStr config.apiToken]
  ++ (if strTruthy config.githubRef then [.str "-f", optStr config.githubRef] else [])

/-- The arguments of `runCodeseeMapUpload` after the map file: the service URL
when one is set. -/
def uploadTail (config : Config) : List JSVal :=
  if strTruthy config.codeseeUrl then [.str "--url", optStr config.codeseeUrl] else []

/-! ## Sample inputs -/

/-- A sample `JSON.parse`, defined on the few texts the examples use. -/
def sampleParse (s : String) : Except JSError JSVal :=
  if s = "\x7b\x7d" then .ok (.obj [])
  else if s = "\x7b\"python\":true\x7d" then .ok (.obj [("python", .bool true)])
  else if s = "\x7b\"insights\":5\x7d" then .ok (.obj [("insights", .num 5)])
  else if s = "\x7b\"insights\":[]\x7d" then .ok (.obj [("insights", .arr [])])
  else .error (.syntaxError "Unexpected token in JSON")

/-- A sample `JSON.stringify`, defined on the few values the examples use. -/
def sampleStringify (v : JSVal) : String :=
  match v with
  | .str "\x7b\x7d" => "\"\x7b\x7d\""
  | .obj [("python", .bool true)] => "\x7b\"python\":true\x7d"
  | _ => "null"

/-- A sample world: every subprocess exits with code 0, the event file holds
`{}`, the metadata file holds `metadata`, the insights module adds no
configuration and its run succeeds. -/
def sampleWorld (metadata : String) : World where
  exec := fun _ _ _ => .ok 0
  readFile := fun _ path =>
    if path = some "codesee.metadata.json" then .ok metadata else .ok "\x7b\x7d"
  parse := sampleParse
  stringify := sampleStringify
  objToString := fun _ => .ok "[object Object]"
  cwd := "/github/workspace"
  insightsGetConfig := id
  insightsRun := fun _ _ => .ok ()

/-- A sample environment: a push to `octocat/Hello-World` with the given
`step`, `api_token` and `languages` variables. -/
def sampleEnv (step apiToken languages : Option String) : Env := fun name =>
  if name = "step" then step
  else if name = "api_token" then apiToken
  else if name = "languages" then languages
  else if name = "GITHUB_EVENT_NAME" then some "push"
  else if name = "GITHUB_EVENT_PATH" then some "/github/workflow/event.json"
  else if name = "GITHUB_REPOSITORY" then some "octocat/Hello-World"
  else if name = "GITHUB_SERVER_URL" then some "https://github.com"
  else if name = "github_ref" then some "main"
  else none

/-- A sample world whose files are all unreadable. -/
def sampleUnreadableWorld : World where
  exec := fun _ _ _ => .ok 0
  readFile := fun _ _ => .error (.external "ENOENT: no such file or directory")
  parse := sampleParse
  stringify := sampleStringify
  objToString := fun _ => .ok "[object Object]"
  cwd := "/github/workspace"
  insightsGetConfig := id
  insightsRun := fun _ _ => .ok ()

/-- A sample environment of a pull request run of the step `map`. -/
def samplePullRequestEnv : Env := fun name =>
  if name = "with_event_name" then some "pull_request"
  else sampleEnv (some "map") (some "token") none name

/-- A sample configuration with a credential and python enabled. -/
def sampleConfig : Config where
  apiToken := some "token"
  webpackConfigPath := none
  supportTypescript := false
  repoFullName := some "octocat/Hello-World"
  githubOrigin := some "https://github.com"
  repoOrigin := "https://github.com/octocat/Hello-World"
  githubBaseRef := some "main"
  githubRef := some "feature"
  skipUpload := false
  languages := .obj [("python", .bool true)]
  eventDataPath := some "/github/workflow/event.json"
  eventName := some "pull_request_target"
  codeseeUrl := none
  step := "legacy"

/-- A sample payload of a pull request from a fork. -/
def forkedPayload : JSVal :=
  .obj [("number", .num 7),
        ("pull_request", .obj [
          ("head", .obj [("repo", .obj [("fork", .bool true)])]),
          ("base", .obj [("sha", .str "0a1b2c")])])]

/-- A sample forked pull request run. -/
def sampleForkedData : Data where
  config := sampleConfig
  githubEventName := some "pull_request_target"
  githubEventData := forkedPayload


/-- A sample push run. -/
def samplePushData : Data where
  config := sampleConfig
  githubEventName := some "push"
  githubEventData := .obj []

/-! ## Reading what a computation adds -/

/-- The events a computation adds to the trace `t`. -/
def emitted {α : Type} (x : Act α) (t : Trace) : Trace := (x t).2.drop t.length

/-- Every event that `x` adds, from any trace, satisfies `P`. -/
def Emits {α : Type} (P : Event → Prop) (x : Act α) : Prop :=
  ∀ t : Trace, ∃ l : Trace, (x t).2 = t ++ l ∧ ∀ e ∈ l, P e

/-- An event that is not the log line `main` writes when it starts a step. -/
def notStepStart (e : Event) : Prop := stepsStarted [e] = []

/-- An event that is not a call of `insightsAction.run`. -/
def notInsightsRun : Event → Prop
  | .insightsRun => False
  | _ => True


/-! ## Running the model -/

theorem execCalls_append (a b : Trace) : execCalls (a ++ b) = execCalls a ++ execCalls b := by
  induction a with
  | nil => rfl
  | cons e rest ih => cases e <;> simp [execCalls, ih]

theorem pure_run {α : Type} (a : α) (t : Trace) : (pure a : Act α) t = (.ok a, t) := rfl

/-- What `generate` does when the classifier throws. -/
theorem generate_run_forked_error (w : World) (data : Data) (t : Trace) (e : JSError)
    (h : isForkedPullRequestEvent data.githubEventName data.githubEventData = .error e) :
    generate w data t = (.error e, t ++ [.startGroup "Generate Map Data", .endGroup]) := by
  simp [generate, group, bind, Act.bind, Act.lift, h, emit, Act.tryFinally]

/-- What `generate` does when the configuration check throws. -/
theorem generate_run_insecure_error (w : World) (data : Data) (t : Trace) (f : JSVal)
    (e : JSError)
    (h : isForkedPullRequestEvent data.githubEventName data.githubEventData = .ok f)
    (hf : f.truthy = true) (h2 : isInsecureConfiguration data.config = .error e) :
    generate w data t = (.error e, t ++ [.startGroup "Generate Map Data", .endGroup]) := by
  simp [generate, group, bind, Act.bind, Act.lift, h, hf, h2, emit, Act.tryFinally]

/-- What `generate` does when the gate is open. -/
theorem generate_run_gate (w : World) (data : Data) (t : Trace) (f i : JSVal)
    (h : isForkedPullRequestEvent data.githubEventName data.githubEventData = .ok f)
    (hf : f.truthy = true) (h2 : isInsecureConfiguration data.config = .ok i)
    (hi : i.truthy = true) :
    generate w data t =
      ((w.exec (t ++ [.startGroup "Generate Map Data",
          .info "Detected Forked PR with potential insecure configuration, disabling python",
          .info "Consider updating your workflow to the latest version from CodeSee."])
          "npx" ((runCodeseeMapArgs w data.config ["python"]).map JSVal.str)).map (fun _ => ()),
       t ++ [.startGroup "Generate Map Data",
        .info "Detected Forked PR with potential insecure configuration, disabling python",
        .info "Consider updating your workflow to the latest version from CodeSee.",
        .exec "npx" ((runCodeseeMapArgs w data.config ["python"]).map JSVal.str),
        .endGroup]) := by
  simp [generate, group, bind, Act.bind, Act.lift, h, hf, h2, hi, emit, Act.tryFinally,
    runCodeseeMap, execCall]
  cases w.exec _ "npx" _ <;> simp [pure_run, Except.map]

/-- What `generate` does when the gate is closed: `b` is the value of the
condition, which is falsy. -/
theorem generate_run_closed (w : World) (data : Data) (t : Trace)
    (h : (∃ f, isForkedPullRequestEvent data.githubEventName data.githubEventData = .ok f
            ∧ f.truthy = false) ∨
         (∃ f i, isForkedPullRequestEvent data.githubEventName data.githubEventData = .ok f
            ∧ f.truthy = true ∧ isInsecureConfiguration data.config = .ok i
            ∧ i.truthy = false)) :
    generate w data t =
      ((w.exec (t ++ [.startGroup "Generate Map Data"] ++
          (if isPullRequestEvent data.githubEventName then
            [.info "Detected no insecure configuration, allowing all languages"] else []))
          "npx" ((runCodeseeMapArgs w data.config []).map JSVal.str)).map (fun _ => ()),
       t ++ [.startGroup "Generate Map Data"] ++
        (if isPullRequestEvent data.githubEventName then
          [.info "Detected no insecure configuration, allowing all languages"] else []) ++
        [.exec "npx" ((runCodeseeMapArgs w data.config []).map JSVal.str), .endGroup]) := by
  by_cases hp : isPullRequestEvent data.githubEventName = true
  · rcases h with ⟨f, h, hf⟩ | ⟨f, i, h, hf, h2, hi⟩
    · simp [generate, group, bind, Act.bind, Act.lift, h, hf, emit, Act.tryFinally,
        runCodeseeMap, execCall, pure_run, hp]
      cases w.exec _ "npx" _ <;> simp [pure_run, Except.map]
    · simp [generate, group, bind, Act.bind, Act.lift, h, hf, h2, hi, emit, Act.tryFinally,
        runCodeseeMap, execCall, pure_run, hp]
      cases w.exec _ "npx" _ <;> simp [pure_run, Except.map]
  · rcases h with ⟨f, h, hf⟩ | ⟨f, i, h, hf, h2, hi⟩
    · simp [generate, group, bind, Act.bind, Act.lift, h, hf, emit, Act.tryFinally,
        runCodeseeMap, execCall, pure_run, hp]
      cases w.exec _ "npx" _ <;> simp [pure_run, Except.map]
    · simp [generate, group, bind, Act.bind, Act.lift, h, hf, h2, hi, emit, Act.tryFinally,
        runCodeseeMap, execCall, pure_run, hp]
      cases w.exec _ "npx" _ <;> simp [pure_run, Except.map]

theorem emitted_of_run {α : Type} (x : Act α) (t l : Trace) (r : Except JSError α)
    (h : x t = (r, t ++ l)) : emitted x t = l := by
  simp [emitted, h]


theorem intercalate_python : ",".intercalate ["python"] = "python" := by decide

theorem args_with_python (w : World) (config : Config) :
    runCodeseeMapArgs w config ["python"] =
      (runCodeseeMapArgs w config []).take 4 ++ ["-x", "python"]
        ++ (runCodeseeMapArgs w config []).drop 4 := by
  simp [runCodeseeMapArgs, intercalate_python]

theorem args_without_exclusion_head (w : World) (config : Config) :
    (runCodeseeMapArgs w config []).take 4 = ["codesee@latest", "map", "-o", "codesee.map.json"]
    ∧ (runCodeseeMapArgs w config []).get? 4 ≠ some "-x" := by
  simp only [runCodeseeMapArgs, List.length_nil, gt_iff_lt, lt_self_iff_false, if_false]
  split_ifs <;> simp

theorem args_without_exclusion_mem (w : World) (config : Config)
    (h1 : config.webpackConfigPath ≠ some "-x") (h2 : config.apiToken ≠ some "-x")
    (h3 : w.stringify config.languages ≠ "-x") (h4 : config.codeseeUrl ≠ some "-x")
    (h5 : config.repoOrigin ≠ "-x") (h6 : w.cwd ≠ "-x") :
    "-x" ∉ runCodeseeMapArgs w config [] := by
  simp only [runCodeseeMapArgs, List.length_nil, gt_iff_lt, lt_self_iff_false, if_false]
  cases hw : config.webpackConfigPath <;> cases ha : config.apiToken <;>
    cases hu : config.codeseeUrl <;> simp_all [jsStr, strTruthy, @eq_comm _ "-x"]


theorem isPullRequestEvent_iff (name : Option String) :
    isPullRequestEvent name = true ↔
      (name = some "pull_request" ∨ name = some "pull_request_target") := by
  simp [isPullRequestEvent]

theorem isForked_truthy_iff (name : Option String) (payload : JSVal) :
    (∃ f, isForkedPullRequestEvent name payload = .ok f ∧ f.truthy = true) ↔
      (isPullRequestEvent name = true ∧
        ∃ pr head repo fork, payload.getProp "pull_request" = .ok pr ∧
          pr.getProp "head" = .ok head ∧ head.getProp "repo" = .ok repo ∧
          repo.getProp "fork" = .ok fork ∧ fork.truthy = true) := by
  unfold isForkedPullRequestEvent
  by_cases hp : isPullRequestEvent name = true
  · simp only [hp, if_true, true_and]
    cases h1 : payload.getProp "pull_request" with
    | error e => simp [bind, Except.bind]
    | ok pr =>
      cases h2 : pr.getProp "head" with
      | error e => simp [bind, Except.bind, h2]
      | ok head =>
        cases h3 : head.getProp "repo" with
        | error e => simp [bind, Except.bind, h2, h3]
        | ok repo => simp [bind, Except.bind, h2, h3]
  · simp [hp, pure, Except.pure, JSVal.truthy]

theorem isInsecure_truthy_iff (config : Config) :
    (∃ i, isInsecureConfiguration config = .ok i ∧ i.truthy = true) ↔
      (strTruthy config.apiToken = true ∧
        ∃ p, config.languages.getProp "python" = .ok p ∧ p.truthy = true) := by
  unfold isInsecureConfiguration
  by_cases ht : strTruthy config.apiToken = true
  · simp [ht]
  · cases hc : config.apiToken with
    | none => simp [hc, strTruthy, pure, Except.pure, optStr, JSVal.truthy]
    | some s =>
      simp [hc, strTruthy] at ht
      simp [hc, strTruthy, pure, Except.pure, optStr, JSVal.truthy, ht]

/-- C1. Security gate. Write `gate` for: `isForkedPullRequestEvent` evaluates
to a truthy value and `isInsecureConfiguration` evaluates to a truthy value;
this is the same as: the event is a pull request event whose payload has a
truthy `pull_request.head.repo.fork`, the credential is present and
`languages.python` is truthy. When `gate` holds, `generate` makes exactly one
subprocess call, `npx` with the arguments of `runCodeseeMap` for the exclusion
list `["python"]`; these are the arguments for the empty exclusion list with
`"-x", "python"` inserted right after the output file. When `gate` fails and
the condition does not throw, `generate` makes exactly one call with the
arguments for the empty exclusion list, whose fifth entry is not `"-x"` and
which do not contain `"-x"` at all unless a configured value is spelled so.
When evaluating the condition throws, no call is made; this never happens for
an event that is not a pull request event. -/
theorem generate_security_gate (w : World) (data : Data) (t : Trace) :
    let forked := isForkedPullRequestEvent data.githubEventName data.githubEventData
    let insecure := isInsecureConfiguration data.config
    let gate : Prop :=
      (∃ f, forked = .ok f ∧ f.truthy = true) ∧ (∃ i, insecure = .ok i ∧ i.truthy = true)
    let throws : Prop :=
      (∃ e, forked = .error e) ∨
        ((∃ f, forked = .ok f ∧ f.truthy = true) ∧ ∃ e, insecure = .error e)
    let withPython := runCodeseeMapArgs w data.config ["python"]
    let withNone := runCodeseeMapArgs w data.config []
    (gate ↔
      (isPullRequestEvent data.githubEventName = true ∧
        (∃ pr head repo fork, data.githubEventData.getProp "pull_request" = .ok pr ∧
          pr.getProp "head" = .ok head ∧ head.getProp "repo" = .ok repo ∧
          repo.getProp "fork" = .ok fork ∧ fork.truthy = true)) ∧
      (strTruthy data.config.apiToken = true ∧
        ∃ p, data.config.languages.getProp "python" = .ok p ∧ p.truthy = true))
    ∧ (gate → execCalls (emitted (generate w data) t) = [("npx", withPython.map JSVal.str)])
    ∧ (¬ gate → ¬ throws →
        execCalls (emitted (generate w data) t) = [("npx", withNone.map JSVal.str)])
    ∧ (throws → execCalls (emitted (generate w data) t) = [])
    ∧ (isPullRequestEvent data.githubEventName = false → ¬ gate ∧ ¬ throws)
    ∧ withPython = withNone.take 4 ++ ["-x", "python"] ++ withNone.drop 4
    ∧ withNone.take 4 = ["codesee@latest", "map", "-o", "codesee.map.json"]
    ∧ withNone.get? 4 ≠ some "-x"
    ∧ (data.config.webpackConfigPath ≠ some "-x" → data.config.apiToken ≠ some "-x" →
        w.stringify data.config.languages ≠ "-x" → data.config.codeseeUrl ≠ some "-x" →
        data.config.repoOrigin ≠ "-x" → w.cwd ≠ "-x" → "-x" ∉ withNone) := by
  intro forked insecure gate throws withPython withNone
  refine ⟨?_, ?_, ?_, ?_, ?_, args_with_python w data.config,
    (args_without_exclusion_head w data.config).1,
    (args_without_exclusion_head w data.config).2,
    args_without_exclusion_mem w data.config⟩
  · exact and_congr (isForked_truthy_iff _ _) (isInsecure_truthy_iff _)
  · rintro ⟨⟨f, h, hf⟩, ⟨i, h2, hi⟩⟩
    rw [emitted_of_run _ _ _ _ (generate_run_gate w data t f i h hf h2 hi)]
    simp [execCalls]
  · intro hg ht
    have hc : (∃ f, forked = .ok f ∧ f.truthy = false) ∨
        (∃ f i, forked = .ok f ∧ f.truthy = true ∧ insecure = .ok i ∧ i.truthy = false) := by
      cases h : forked with
      | error e => exact absurd (Or.inl ⟨e, h⟩) ht
      | ok f =>
        cases hf : f.truthy with
        | false => exact Or.inl ⟨f, rfl, hf⟩
        | true =>
          cases h2 : insecure with
          | error e => exact absurd (Or.inr ⟨⟨f, h, hf⟩, e, h2⟩) ht
          | ok i =>
            cases hi : i.truthy with
            | false => exact Or.inr ⟨f, i, rfl, hf, rfl, hi⟩
            | true => exact absurd ⟨⟨f, h, hf⟩, ⟨i, h2, hi⟩⟩ hg
    rw [emitted_of_run _ _ _ _ (by simpa [List.append_assoc] using generate_run_closed w data t hc)]
    by_cases hp : isPullRequestEvent data.githubEventName = true <;> simp [execCalls, hp]
  · rintro (⟨e, h⟩ | ⟨⟨f, h, hf⟩, e, h2⟩)
    · rw [emitted_of_run _ _ _ _ (generate_run_forked_error w data t e h)]
      simp [execCalls]
    · rw [emitted_of_run _ _ _ _ (generate_run_insecure_error w data t f e h hf h2)]
      simp [execCalls]
  · intro hp
    have hfk : forked = .ok (.bool false) := by
      simp [forked, isForkedPullRequestEvent, hp, pure, Except.pure]
    refine ⟨?_, ?_⟩
    · rintro ⟨⟨f, h, hf⟩, _⟩
      rw [hfk] at h
      cases h
      simp [JSVal.truthy] at hf
    · rintro (⟨e, h⟩ | ⟨⟨f, h, hf⟩, _⟩)
      · rw [hfk] at h
        cases h
      · rw [hfk] at h
        cases h
        simp [JSVal.truthy] at hf

/-- Witness for C1 on a forked pull request with a credential and python
enabled: the one call made carries the exclusion flag. -/
theorem generate_security_gate_witness :
    execCalls (emitted (generate (sampleWorld "") sampleForkedData) []) =
      [("npx", [.str "codesee@latest", .str "map", .str "-o", .str "codesee.map.json",
        .str "-x", .str "python", .str "-a", .str "token",
        .str "--languages", .str "\x7b\"python\":true\x7d",
        .str "--repo", .str "https://github.com/octocat/Hello-World",
        .str "/github/workspace"])] :=
  (generate_security_gate (sampleWorld "") sampleForkedData []).2.1
    ⟨⟨.bool true, rfl, rfl⟩, ⟨.bool true, rfl, rfl⟩⟩

/-- C2, at the failing input. For a pull request event and the empty payload
`{}` that `getEventData` falls back to, `isForkedPullRequestEvent` throws a
`TypeError` (reading `head` of `undefined`) instead of yielding false; for an
event that is not a pull request event it yields false. A pull request run of
the step `map` whose event file is unreadable ends with this error. -/
theorem isForkedPullRequestEvent_empty_payload_throws :
    isForkedPullRequestEvent (some "pull_request") (.obj []) =
      .error (.typeError "Cannot read properties of undefined (reading head)")
    ∧ isForkedPullRequestEvent (some "pull_request_target") (.obj []) =
      .error (.typeError "Cannot read properties of undefined (reading head)")
    ∧ isForkedPullRequestEvent (some "push") (.obj []) = .ok (.bool false)
    ∧ (main sampleUnreadableWorld samplePullRequestEnv []).1 =
      .error (.typeError "Cannot read properties of undefined (reading head)") :=
  ⟨rfl, rfl, rfl, rfl⟩

/-! ## Events a computation can add -/

theorem Emits.pure {α : Type} (P : Event → Prop) (a : α) : Emits P (pure a : Act α) :=
  fun t => ⟨[], by simp [pure_run]⟩

theorem Emits.lift {α : Type} (P : Event → Prop) (r : Except JSError α) :
    Emits P (Act.lift r) :=
  fun t => ⟨[], by simp [Act.lift]⟩

theorem Emits.throw {α : Type} (P : Event → Prop) (e : JSError) :
    Emits P (Act.throw e : Act α) :=
  fun t => ⟨[], by simp [Act.throw]⟩

theorem Emits.emit (P : Event → Prop) (e : Event) (h : P e) : Emits P (emit e) :=
  fun t => ⟨[e], by simp [CodeseeAction.emit, h]⟩

theorem Emits.execCall (P : Event → Prop) (w : World) (c : String) (a : List JSVal)
    (h : P (.exec c a)) : Emits P (execCall w c a) :=
  fun t => ⟨[.exec c a], by simp [CodeseeAction.execCall, h]⟩

theorem Emits.readFile (P : Event → Prop) (w : World) (p : Option String)
    (h : P (.readFile p)) : Emits P (readFile w p) :=
  fun t => ⟨[.readFile p], by simp [CodeseeAction.readFile, h]⟩

theorem Emits.bind {α β : Type} (P : Event → Prop) (x : Act α) (f : α → Act β)
    (hx : Emits P x) (hf : ∀ a, Emits P (f a)) : Emits P (x >>= f) := by
  intro t
  obtain ⟨l, hl, hP⟩ := hx t
  show ∃ l, (Act.bind x f t).2 = t ++ l ∧ _
  unfold Act.bind
  rcases hxt : x t with ⟨r, t'⟩
  rw [hxt] at hl
  simp only at hl
  subst hl
  cases r with
  | error e => exact ⟨l, rfl, hP⟩
  | ok a =>
    obtain ⟨l2, hl2, hP2⟩ := hf a (t ++ l)
    refine ⟨l ++ l2, by simp [hl2], ?_⟩
    intro e he
    rcases List.mem_append.1 he with h | h
    · exact hP e h
    · exact hP2 e h

theorem Emits.tryCatch {α : Type} (P : Event → Prop) (x : Act α) (f : JSError → Act α)
    (hx : Emits P x) (hf : ∀ e, Emits P (f e)) : Emits P (Act.tryCatch x f) := by
  intro t
  obtain ⟨l, hl, hP⟩ := hx t
  unfold Act.tryCatch
  rcases hxt : x t with ⟨r, t'⟩
  rw [hxt] at hl
  simp only at hl
  subst hl
  cases r with
  | ok a => exact ⟨l, rfl, hP⟩
  | error e =>
    obtain ⟨l2, hl2, hP2⟩ := hf e (t ++ l)
    refine ⟨l ++ l2, by simp [hl2], ?_⟩
    intro e he
    rcases List.mem_append.1 he with h | h
    · exact hP e h
    · exact hP2 e h

theorem Emits.tryFinally {α : Type} (P : Event → Prop) (x : Act α) (fin : Act Unit)
    (hx : Emits P x) (hf : Emits P fin) : Emits P (Act.tryFinally x fin) := by
  intro t
  obtain ⟨l, hl, hP⟩ := hx t
  unfold Act.tryFinally
  rcases hxt : x t with ⟨r, t'⟩
  rw [hxt] at hl
  simp only at hl
  subst hl
  obtain ⟨l2, hl2, hP2⟩ := hf (t ++ l)
  rcases hft : fin (t ++ l) with ⟨r2, t''⟩
  rw [hft] at hl2
  simp only at hl2
  subst hl2
  have hmem : ∀ e ∈ l ++ l2, P e := by
    intro e he
    rcases List.mem_append.1 he with h | h
    · exact hP e h
    · exact hP2 e h
  cases r2 with
  | ok u => exact ⟨l ++ l2, by simp [hft], hmem⟩
  | error e => exact ⟨l ++ l2, by simp [hft], hmem⟩

theorem Emits.ite {α : Type} (P : Event → Prop) (c : Prop) [Decidable c] (x y : Act α)
    (hx : Emits P x) (hy : Emits P y) : Emits P (if c then x else y) := by
  split
  · exact hx
  · exact hy

theorem Emits.group {α : Type} (P : Event → Prop) (name : String) (x : Act α)
    (h1 : P (.startGroup name)) (h2 : P .endGroup) (hx : Emits P x) :
    Emits P (group name x) :=
  Emits.bind P _ _ (Emits.emit P _ h1)
    (fun _ => Emits.tryFinally P _ _ hx (Emits.emit P _ h2))

theorem needsInsights_emits (P : Event → Prop) (w : World) (config : Config)
    (h1 : ∀ c a, P (.exec c a)) (h2 : ∀ p, P (.readFile p)) (h3 : ∀ m, P (.warning m)) :
    Emits P (needsInsights w config) := by
  unfold needsInsights
  refine Emits.bind P _ _ (Emits.execCall P _ _ _ (h1 _ _)) (fun code => ?_)
  refine Emits.ite P _ _ _ (Emits.pure P _) ?_
  refine Emits.tryCatch P _ _ ?_ (fun e => ?_)
  · refine Emits.bind P _ _ (Emits.readFile P _ _ (h2 _)) (fun text => ?_)
    refine Emits.bind P _ _ (Emits.lift P _) (fun output => ?_)
    refine Emits.bind P _ _ (Emits.lift P _) (fun disabled => ?_)
    refine Emits.ite P _ _ _ (Emits.pure P _) ?_
    refine Emits.bind P _ _ (Emits.lift P _) (fun ins => ?_)
    refine Emits.bind P _ _ (Emits.lift P _) (fun len => ?_)
    exact Emits.pure P _
  · exact Emits.bind P _ _ (Emits.emit P _ (h3 _)) (fun _ => Emits.pure P _)

theorem generate_emits (P : Event → Prop) (w : World) (data : Data)
    (h1 : ∀ c a, P (.exec c a)) (h2 : ∀ n, P (.startGroup n)) (h3 : P .endGroup)
    (h4 : P (.info "Detected Forked PR with potential insecure configuration, disabling python"))
    (h5 : P (.info "Consider updating your workflow to the latest version from CodeSee."))
    (h6 : P (.info "Detected no insecure configuration, allowing all languages")) :
    Emits P (generate w data) := by
  unfold generate
  refine Emits.bind P _ _ (Emits.group P _ _ (h2 _) h3 ?_) (fun _ => Emits.pure P _)
  refine Emits.bind P _ _ (Emits.lift P _) (fun forked => ?_)
  refine Emits.bind P _ _ (Emits.ite P _ _ _ (Emits.lift P _) (Emits.pure P _))
    (fun insecure => ?_)
  refine Emits.ite P _ _ _ ?_ ?_
  · refine Emits.bind P _ _ (Emits.emit P _ h4) (fun _ => ?_)
    refine Emits.bind P _ _ (Emits.emit P _ h5) (fun _ => ?_)
    exact Emits.execCall P _ _ _ (h1 _ _)
  · refine Emits.bind P _ _ (Emits.ite P _ _ _ (Emits.emit P _ h6) (Emits.pure P _))
      (fun _ => ?_)
    exact Emits.execCall P _ _ _ (h1 _ _)

theorem upload_emits (P : Event → Prop) (w : World) (data : Data)
    (h1 : ∀ c a, P (.exec c a)) (h2 : ∀ n, P (.startGroup n)) (h3 : P .endGroup)
    (h4 : P (.info "Skipping map upload")) :
    Emits P (upload w data) := by
  unfold upload
  refine Emits.ite P _ _ _ (Emits.emit P _ h4) ?_
  refine Emits.bind P _ _ (Emits.group P _ _ (h2 _) h3 ?_) (fun _ => Emits.pure P _)
  unfold runCodeseeMapUpload
  refine Emits.bind P _ _ (Emits.lift P _) (fun args => ?_)
  exact Emits.execCall P _ _ _ (h1 _ _)

theorem insights_emits (P : Event → Prop) (w : World) (data : Data)
    (h1 : ∀ c a, P (.exec c a)) (h2 : ∀ p, P (.readFile p)) (h3 : ∀ m, P (.warning m))
    (h4 : P (.info "Running on a pull request so skipping insight collection"))
    (h5 : P .insightsRun) :
    Emits P (insights w data) := by
  unfold insights
  refine Emits.ite P _ _ _ (Emits.emit P _ h4) ?_
  refine Emits.bind P _ _ (needsInsights_emits P w _ h1 h2 h3) (fun needed => ?_)
  refine Emits.ite P _ _ _ (Emits.pure P _) ?_
  exact fun t => ⟨[.insightsRun], by simp [h5]⟩

theorem requireApiToken_emits (P : Event → Prop) (data : Data) (h : ∀ m, P (.warning m)) :
    Emits P (requireApiToken data) := by
  unfold requireApiToken
  refine Emits.ite P _ _ _ ?_ (Emits.pure P _)
  exact Emits.bind P _ _ (Emits.emit P _ (h _)) (fun _ => Emits.throw P _)

theorem setup_emits (P : Event → Prop) (w : World) (env : Env)
    (h1 : ∀ c a, P (.exec c a)) (h2 : ∀ n, P (.startGroup n)) (h3 : P .endGroup)
    (h4 : ∀ p, P (.readFile p)) (h5 : ∀ m, P (.debug m)) (h6 : P .debugConfig)
    (h7 : ∀ n, P (.setSecret n)) :
    Emits P (setup w env) := by
  unfold setup
  refine Emits.bind P _ _ (Emits.emit P _ (h2 _)) (fun _ => ?_)
  refine Emits.bind P _ _ (Emits.emit P _ (h7 _)) (fun _ => ?_)
  refine Emits.bind P _ _ (Emits.lift P _) (fun config => ?_)
  refine Emits.bind P _ _ (Emits.emit P _ (h5 _)) (fun _ => ?_)
  refine Emits.bind P _ _ (Emits.emit P _ h6) (fun _ => ?_)
  refine Emits.bind P _ _ (Emits.group P _ _ (h2 _) h3 ?_) (fun _ => ?_)
  · unfold checkoutHeadRef
    refine Emits.bind P _ _ (Emits.execCall P _ _ _ (h1 _ _)) (fun code => ?_)
    exact Emits.ite P _ _ _ (Emits.throw P _) (Emits.pure P _)
  · refine Emits.bind P _ _ ?_ (fun event => ?_)
    · unfold getEventData
      refine Emits.bind P _ _ ?_ (fun d => Emits.pure P _)
      refine Emits.tryCatch P _ _ ?_ (fun _ => Emits.pure P _)
      exact Emits.bind P _ _ (Emits.readFile P _ _ (h4 _)) (fun text => Emits.lift P _)
    · exact Emits.bind P _ _ (Emits.emit P _ h3) (fun _ => Emits.pure P _)

theorem stepsStarted_append (a b : Trace) :
    stepsStarted (a ++ b) = stepsStarted a ++ stepsStarted b := by
  induction a with
  | nil => rfl
  | cons e rest ih =>
    cases e <;> simp [stepsStarted, ih]
    split_ifs <;> simp

theorem stepsStarted_of_notStepStart (l : Trace) (h : ∀ e ∈ l, notStepStart e) :
    stepsStarted l = [] := by
  induction l with
  | nil => rfl
  | cons e rest ih =>
    have h1 : stepsStarted [e] = [] := h e (by simp)
    have h2 := ih (fun e he => h e (by simp [he]))
    have := stepsStarted_append [e] rest
    simpa [h1, h2] using this

/-- A `setup` that completes has resolved the configuration it returns, and has
added exactly the events of `setupTrace`. -/
theorem setup_ok_trace (w : World) (env : Env) (t t0 : Trace) (data : Data)
    (h : setup w env t = (.ok data, t0)) :
    getConfig w.parse w.insightsGetConfig env = .ok data.config
      ∧ t0 = t ++ setupTrace data.config := by
  simp only [setup, setupEnv, group, checkoutHeadRef, getEventData, bind, Act.bind, emit,
    Act.lift, Act.tryFinally, Act.tryCatch, execCall, readFile, pure_run] at h
  cases hc : getConfig w.parse w.insightsGetConfig env with
  | error e => simp [hc] at h
  | ok config =>
    simp only [hc, List.append_assoc, List.cons_append, List.nil_append] at h
    cases hx : w.exec (t ++ [Event.startGroup "Setup", Event.setSecret "api_token",
        Event.debug "CONFIG: ", Event.debugConfig, Event.startGroup "Checkout HEAD Ref"]) "git"
        [JSVal.str "checkout", optStr config.githubRef] with
    | error e => simp [hx] at h
    | ok code =>
      simp only [hx] at h
      by_cases h0 : code = 0
      · subst h0
        simp only [ne_eq, not_true_eq_false, if_false, pure_run, List.append_assoc,
          List.cons_append, List.nil_append] at h
        cases hr : w.readFile (t ++ [Event.startGroup "Setup", Event.setSecret "api_token",
            Event.debug "CONFIG: ", Event.debugConfig, Event.startGroup "Checkout HEAD Ref",
            Event.exec "git" [JSVal.str "checkout", optStr config.githubRef],
            Event.endGroup]) config.eventDataPath with
        | error e =>
          simp [hr, pure_run] at h
          obtain ⟨h1, h2⟩ := h
          subst h1
          simp [setupTrace, ← h2]
        | ok text =>
          cases hp : w.parse text with
          | error e =>
            simp [hr, hp, pure_run] at h
            obtain ⟨h1, h2⟩ := h
            subst h1
            simp [setupTrace, ← h2]
          | ok v =>
            simp [hr, hp, pure_run] at h
            obtain ⟨h1, h2⟩ := h
            subst h1
            simp [setupTrace, ← h2]
      · simp [h0, Act.throw] at h

theorem main_run (w : World) (env : Env) (t : Trace) :
    main w env t =
      match setup w env t with
      | (.ok data, t0) =>
        (match stepMap.lookup data.config.step with
          | none => (.ok (), t0 ++ [Event.error ("Unable to find run configuration for "
              ++ data.config.step ++ ". Should be one of "
              ++ ", ".intercalate (stepMap.map Prod.fst))])
          | some plan => runSteps w data plan t0)
      | (.error e, t0) => (.error e, t0) := by
  simp only [main, bind, Act.bind]
  rcases setup w env t with ⟨r, t0⟩
  cases r with
  | error e => rfl
  | ok data =>
    simp only
    cases stepMap.lookup data.config.step <;> simp [emit]

theorem runSteps_cons (w : World) (data : Data) (f : StepFunc) (rest : List StepFunc)
    (t : Trace) :
    runSteps w data (f :: rest) t =
      match f.run w data (t ++ [Event.info ("Running step " ++ f.name)]) with
      | (.ok _, t1) => runSteps w data rest t1
      | (.error e, t1) => (.error e, t1) := by
  simp only [runSteps, bind, Act.bind, emit]
  rcases StepFunc.run w f data (t ++ [Event.info ("Running step " ++ f.name)]) with ⟨r, t1⟩
  cases r <;> rfl

theorem runSteps_nil (w : World) (data : Data) (t : Trace) :
    runSteps w data [] t = (.ok (), t) := rfl

theorem requireApiToken_run_missing (data : Data) (t : Trace)
    (h : strTruthy data.config.apiToken = false) :
    requireApiToken data t =
      (.error (.error "Api Token Required to continue"), t ++ [Event.warning apiTokenWarning]) := by
  simp [requireApiToken, h, bind, Act.bind, emit, Act.throw]

theorem requireApiToken_run_present (data : Data) (t : Trace)
    (h : strTruthy data.config.apiToken = true) :
    requireApiToken data t = (.ok (), t) := by
  simp [requireApiToken, h, pure_run]

theorem stepNames : ", ".intercalate (stepMap.map Prod.fst) = "map, mapUpload, insights, legacy" := by
  decide

theorem lookup_none_of_not_mem (step : String)
    (h : step ∉ ["map", "mapUpload", "insights", "legacy"]) : stepMap.lookup step = none := by
  simp only [List.mem_cons, List.mem_singleton, not_or, List.not_mem_nil, or_false] at h
  obtain ⟨h1, h2, h3, h4⟩ := h
  have b1 : (step == "map") = false := by simp [h1]
  have b2 : (step == "mapUpload") = false := by simp [h2]
  have b3 : (step == "insights") = false := by simp [h3]
  have b4 : (step == "legacy") = false := by simp [h4]
  simp only [stepMap, List.lookup, b1, b2, b3, b4]

theorem execCalls_setupTrace (config : Config) :
    execCalls (setupTrace config) = [("git", [.str "checkout", optStr config.githubRef])] := by
  simp [setupTrace, execCalls]

theorem stepsStarted_setupTrace (config : Config) : stepsStarted (setupTrace config) = [] := by
  simp [setupTrace, stepsStarted]

/-- C3, amended. When `setup` completes, the step is `mapUpload`, `insights` or
`legacy` and no credential is configured, `main` throws the error
`Api Token Required to continue` right after the warning of `requireApiToken`;
the only step function started is `requireApiToken`, and the only subprocess
call of the run is the `git checkout` of `setup`. -/
theorem requireApiToken_aborts_plan (w : World) (env : Env) (t t0 : Trace) (data : Data)
    (hs : setup w env t = (.ok data, t0))
    (hstep : data.config.step = "mapUpload" ∨ data.config.step = "insights"
      ∨ data.config.step = "legacy")
    (htok : strTruthy data.config.apiToken = false) :
    main w env t =
      (.error (.error "Api Token Required to continue"),
        t ++ setupTrace data.config
          ++ [.info "Running step requireApiToken", .warning apiTokenWarning])
    ∧ stepsStarted (emitted (main w env) t) = ["requireApiToken"]
    ∧ execCalls (emitted (main w env) t)
        = [("git", [.str "checkout", optStr data.config.githubRef])] := by
  have ht0 := (setup_ok_trace w env t t0 data hs).2
  have hm : main w env t =
      (.error (.error "Api Token Required to continue"),
        t ++ setupTrace data.config
          ++ [.info "Running step requireApiToken", .warning apiTokenWarning]) := by
    rw [main_run, hs]
    rcases hstep with h | h | h <;>
      simp [h, stepMap, List.lookup, runSteps_cons, StepFunc.run, StepFunc.name,
        requireApiToken_run_missing _ _ htok, ht0]
  refine ⟨hm, ?_, ?_⟩
  · rw [emitted_of_run _ _ _ _ (by simpa [List.append_assoc] using hm)]
    simp [stepsStarted_append, stepsStarted_setupTrace, stepsStarted]
  · rw [emitted_of_run _ _ _ _ (by simpa [List.append_assoc] using hm)]
    simp [execCalls_append, execCalls_setupTrace, execCalls]

/-- C5, amended. When `setup` completes and the step is none of the four names,
`main` logs one error that lists the four names and returns without throwing;
no step function is started, and the only subprocess call of the run is the
`git checkout` of `setup`. -/
theorem unknown_step_logs_error (w : World) (env : Env) (t t0 : Trace) (data : Data)
    (hs : setup w env t = (.ok data, t0))
    (hstep : data.config.step ∉ ["map", "mapUpload", "insights", "legacy"]) :
    main w env t =
      (.ok (),
        t ++ setupTrace data.config
          ++ [.error ("Unable to find run configuration for " ++ data.config.step
                ++ ". Should be one of " ++ "map, mapUpload, insights, legacy")])
    ∧ stepsStarted (emitted (main w env) t) = []
    ∧ execCalls (emitted (main w env) t)
        = [("git", [.str "checkout", optStr data.config.githubRef])] := by
  have ht0 := (setup_ok_trace w env t t0 data hs).2
  have hm : main w env t =
      (.ok (),
        t ++ setupTrace data.config
          ++ [.error ("Unable to find run configuration for " ++ data.config.step
                ++ ". Should be one of " ++ "map, mapUpload, insights, legacy")]) := by
    rw [main_run, hs]
    simp only [lookup_none_of_not_mem _ hstep, stepNames, ht0]
  refine ⟨hm, ?_, ?_⟩
  · rw [emitted_of_run _ _ _ _ (by simpa [List.append_assoc] using hm)]
    simp [stepsStarted_append, stepsStarted_setupTrace, stepsStarted]
  · rw [emitted_of_run _ _ _ _ (by simpa [List.append_assoc] using hm)]
    simp [execCalls_append, execCalls_setupTrace, execCalls]

/-- Witness for C3: step `mapUpload` without a credential. -/
theorem requireApiToken_aborts_plan_witness :
    execCalls (emitted (main (sampleWorld "") (sampleEnv (some "mapUpload") none none)) [])
      = [("git", [.str "checkout", .str "main"])] :=
  (requireApiToken_aborts_plan (sampleWorld "") (sampleEnv (some "mapUpload") none none)
    [] _ _ rfl (Or.inl rfl) rfl).2.2

/-- C3 as stated fails: with step `mapUpload` and no credential the run throws
the credential error, but a subprocess call (the checkout) has been made. -/
theorem mapUpload_without_token_after_checkout :
    (main (sampleWorld "") (sampleEnv (some "mapUpload") none none) []).1
      = .error (.error "Api Token Required to continue")
    ∧ execCalls (main (sampleWorld "") (sampleEnv (some "mapUpload") none none) []).2 ≠ [] := by
  refine ⟨rfl, ?_⟩
  rw [show execCalls (main (sampleWorld "") (sampleEnv (some "mapUpload") none none) []).2
    = [("git", [.str "checkout", .str "main"])] from rfl]
  simp

/-- Witness for C5: the step `bogus`. -/
theorem unknown_step_logs_error_witness :
    main (sampleWorld "") (sampleEnv (some "bogus") (some "token") none) [] =
      (.ok (),
        [.startGroup "Setup", .setSecret "api_token", .debug "CONFIG: ", .debugConfig,
         .startGroup "Checkout HEAD Ref", .exec "git" [.str "checkout", .str "main"],
         .endGroup, .readFile (some "/github/workflow/event.json"), .endGroup,
         .error "Unable to find run configuration for bogus. Should be one of map, mapUpload, insights, legacy"]) :=
  (unknown_step_logs_error (sampleWorld "") (sampleEnv (some "bogus") (some "token") none)
    [] _ _ rfl (by decide)).1

/-- C5 as stated fails: with the step `bogus` the run makes one subprocess
call, the checkout of `setup`. -/
theorem bogus_step_runs_checkout :
    execCalls (main (sampleWorld "") (sampleEnv (some "bogus") (some "token") none) []).2
      = [("git", [.str "checkout", .str "main"])]
    ∧ execCalls (main (sampleWorld "") (sampleEnv (some "bogus") (some "token") none) []).2
      ≠ [] := by
  refine ⟨rfl, ?_⟩
  rw [show execCalls (main (sampleWorld "") (sampleEnv (some "bogus") (some "token") none) []).2
    = [("git", [.str "checkout", .str "main"])] from rfl]
  simp

theorem notStepStart_basic :
    (∀ c a, notStepStart (.exec c a)) ∧ (∀ n, notStepStart (.startGroup n))
    ∧ notStepStart .endGroup ∧ (∀ p, notStepStart (.readFile p))
    ∧ (∀ m, notStepStart (.warning m)) ∧ notStepStart .insightsRun := by
  simp [notStepStart, stepsStarted]

/-- What a `generate`, `upload` or `insights` adds to the trace contains no
step start. -/
theorem steps_quiet (w : World) (data : Data) :
    Emits notStepStart (generate w data) ∧ Emits notStepStart (upload w data)
      ∧ Emits notStepStart (insights w data) := by
  obtain ⟨h1, h2, h3, h4, h5, h6⟩ := notStepStart_basic
  refine ⟨generate_emits _ w data h1 h2 h3 ?_ ?_ ?_, upload_emits _ w data h1 h2 h3 ?_,
    insights_emits _ w data h1 h4 h5 ?_ h6⟩ <;> simp [notStepStart, stepsStarted]

/-- C4. The step table maps `map` to `[generate]`, `mapUpload` to
`[requireApiToken, upload]`, `insights` to `[requireApiToken, insights]` and
`legacy` to `[requireApiToken, generate, upload, insights]`, and `getConfig`
resolves an unset or empty `step` variable to `legacy` (when the insights
configuration does not replace `step`). For every run in which `setup`
completes with step `legacy` and a credential, and `main` does not throw, the
step functions started are `requireApiToken, generate, upload, insights`, in
this order and once each; `generate`, `upload` and `insights` each return
normally, each is started on the trace the one before it left, and the trace
of the run is the concatenation of their traces. -/
theorem legacy_plan_runs_in_order :
    (stepMap.lookup "map" = some [.generate]
      ∧ stepMap.lookup "mapUpload" = some [.requireApiToken, .upload]
      ∧ stepMap.lookup "insights" = some [.requireApiToken, .insights]
      ∧ stepMap.lookup "legacy" = some [.requireApiToken, .generate, .upload, .insights])
    ∧ (∀ (parse : String → Except JSError JSVal) (ins : Config → Config) (env : Env)
        (config : Config), (∀ c, (ins c).step = c.step) → strTruthy (env "step") = false →
        getConfig parse ins env = .ok config → config.step = "legacy")
    ∧ (∀ (w : World) (env : Env) (t t0 : Trace) (data : Data),
        setup w env t = (.ok data, t0) → data.config.step = "legacy" →
        strTruthy data.config.apiToken = true → (main w env t).1 = .ok () →
        stepsStarted (emitted (main w env) t)
          = ["requireApiToken", "generate", "upload", "insights"]
        ∧ ∃ tg tu ti : Trace,
          generate w data
              (t0 ++ [.info "Running step requireApiToken", .info "Running step generate"])
            = (.ok (),
                t0 ++ [.info "Running step requireApiToken", .info "Running step generate"]
                  ++ tg)
          ∧ upload w data
              (t0 ++ [.info "Running step requireApiToken", .info "Running step generate"]
                ++ tg ++ [.info "Running step upload"])
            = (.ok (),
                t0 ++ [.info "Running step requireApiToken", .info "Running step generate"]
                  ++ tg ++ [.info "Running step upload"] ++ tu)
          ∧ insights w data
              (t0 ++ [.info "Running step requireApiToken", .info "Running step generate"]
                ++ tg ++ [.info "Running step upload"] ++ tu
                ++ [.info "Running step insights"])
            = (.ok (),
                t0 ++ [.info "Running step requireApiToken", .info "Running step generate"]
                  ++ tg ++ [.info "Running step upload"] ++ tu
                  ++ [.info "Running step insights"] ++ ti)
          ∧ (main w env t).2
              = t0 ++ [.info "Running step requireApiToken", .info "Running step generate"]
                  ++ tg ++ [.info "Running step upload"] ++ tu
                  ++ [.info "Running step insights"] ++ ti
          ∧ stepsStarted tg = [] ∧ stepsStarted tu = [] ∧ stepsStarted ti = []) := by
  refine ⟨⟨rfl, rfl, rfl, rfl⟩, ?_, ?_⟩
  · intro parse ins env config hins hstep hc
    unfold getConfig at hc
    by_cases hl : strTruthy (env "languages") = true
    · cases hp : parse ((env "languages").getD "") with
      | error e => simp [hl, hp, bind, Except.bind] at hc
      | ok v =>
        simp [hl, hp, bind, Except.bind, pure, Except.pure] at hc
        rw [← hc, hins]
        simp [jsOr, hstep]
    · simp [hl, bind, Except.bind, pure, Except.pure] at hc
      rw [← hc, hins]
      simp [jsOr, hstep]
  · intro w env t t0 data hs hstep htok hmain
    have ht0 := (setup_ok_trace w env t t0 data hs).2
    obtain ⟨qg, qu, qi⟩ := steps_quiet w data
    have hm : main w env t =
        runSteps w data [.generate, .upload, .insights]
          (t0 ++ [.info "Running step requireApiToken"]) := by
      rw [main_run, hs]
      simp [hstep, stepMap, List.lookup, runSteps_cons, StepFunc.run, StepFunc.name,
        requireApiToken_run_present _ _ htok]
    rw [hm] at hmain
    have e1 : "Running step " ++ "generate" = "Running step generate" := by decide
    have e2 : "Running step " ++ "upload" = "Running step upload" := by decide
    have e3 : "Running step " ++ "insights" = "Running step insights" := by decide
    simp only [runSteps_cons, StepFunc.run, StepFunc.name, runSteps_nil, e1, e2, e3,
      List.append_assoc, List.cons_append, List.nil_append] at hmain hm
    obtain ⟨tg, hg2, hgP⟩ := qg
      (t0 ++ [.info "Running step requireApiToken", .info "Running step generate"])
    rcases hg : generate w data
      (t0 ++ [.info "Running step requireApiToken", .info "Running step generate"])
      with ⟨rg, tg1⟩
    rw [hg] at hg2 hmain hm
    simp only at hg2
    subst hg2
    cases rg with
    | error e => simp at hmain
    | ok ug =>
      simp only [List.append_assoc, List.cons_append, List.nil_append] at hmain hm
      obtain ⟨tu, hu2, huP⟩ := qu
        (t0 ++ .info "Running step requireApiToken" :: .info "Running step generate"
          :: (tg ++ [.info "Running step upload"]))
      rcases hu : upload w data
        (t0 ++ .info "Running step requireApiToken" :: .info "Running step generate"
          :: (tg ++ [.info "Running step upload"]))
        with ⟨ru, tu1⟩
      rw [hu] at hu2 hmain hm
      simp only at hu2
      subst hu2
      cases ru with
      | error e => simp at hmain
      | ok uu =>
        simp only [List.append_assoc, List.cons_append, List.nil_append] at hmain hm
        obtain ⟨ti, hi2, hiP⟩ := qi
          (t0 ++ .info "Running step requireApiToken" :: .info "Running step generate"
            :: (tg ++ .info "Running step upload" :: (tu ++ [.info "Running step insights"])))
        rcases hi : insights w data
          (t0 ++ .info "Running step requireApiToken" :: .info "Running step generate"
            :: (tg ++ .info "Running step upload" :: (tu ++ [.info "Running step insights"])))
          with ⟨ri, ti1⟩
        rw [hi] at hi2 hmain hm
        simp only at hi2
        subst hi2
        cases ri with
        | error e => simp at hmain
        | ok ui =>
          have sg := stepsStarted_of_notStepStart tg hgP
          have su := stepsStarted_of_notStepStart tu huP
          have si := stepsStarted_of_notStepStart ti hiP
          simp only at hm
          refine ⟨?_, tg, tu, ti, ?_, ?_, ?_, ?_, sg, su, si⟩
          · rw [emitted_of_run _ _ (setupTrace data.config
                ++ [.info "Running step requireApiToken", .info "Running step generate"]
                ++ tg ++ [.info "Running step upload"] ++ tu
                ++ [.info "Running step insights"] ++ ti) (.ok ())
              (by rw [hm, ht0]; simp [List.append_assoc])]
            simp [stepsStarted_append, stepsStarted_setupTrace, sg, su, si, stepsStarted]
          · simpa [List.append_assoc] using hg
          · simpa [List.append_assoc] using hu
          · simpa [List.append_assoc] using hi
          · rw [hm]
            simp [List.append_assoc]

/-- Witness for C4: a push with the default step and a credential. -/
theorem legacy_plan_runs_in_order_witness :
    stepsStarted (emitted (main (sampleWorld "\x7b\x7d") (sampleEnv none (some "token") none)) [])
      = ["requireApiToken", "generate", "upload", "insights"] :=
  (legacy_plan_runs_in_order.2.2 (sampleWorld "\x7b\x7d") (sampleEnv none (some "token") none)
    [] _ _ rfl rfl rfl rfl).1

/-- What `needsInsights` does after a successful metadata call, in terms of
what reading and parsing the metadata file give. -/
theorem needsInsights_run_zero (w : World) (config : Config) (t : Trace)
    (hx : w.exec t "npx" (needsInsightsArgs config) = .ok 0) :
    needsInsights w config t =
      match (do
          let text ← w.readFile (t ++ [.exec "npx" (needsInsightsArgs config)])
            (some "codesee.metadata.json")
          let output ← w.parse text
          let disabled ← output.getProp "insightsDisabled"
          if disabled.truthy then pure (JSVal.str INSIGHTS_DISABLED)
          else do
            let ins ← output.getProp "insights"
            let len ← ins.getProp "length"
            pure (JSVal.bool (len.strictEqNum 0)) : Except JSError JSVal) with
      | .ok v => (.ok v, t ++ [.exec "npx" (needsInsightsArgs config),
          .readFile (some "codesee.metadata.json")])
      | .error e => (.ok (.bool true), t ++ [.exec "npx" (needsInsightsArgs config),
          .readFile (some "codesee.metadata.json"), metadataWarning e]) := by
  simp only [needsInsights, bind, Act.bind, execCall, hx, ne_eq, not_true_eq_false, if_false,
    Act.tryCatch, readFile, Act.lift, emit, pure_run, List.append_assoc, List.cons_append,
    List.nil_append]
  cases hr : w.readFile (t ++ [Event.exec "npx" (needsInsightsArgs config)])
      (some "codesee.metadata.json") with
  | error e => simp [Except.bind]
  | ok text =>
    cases hp : w.parse text with
    | error e => simp [Except.bind, hp]
    | ok output =>
      cases hd : output.getProp "insightsDisabled" with
      | error e => simp [Except.bind, hp, hd]
      | ok d =>
        by_cases hdt : d.truthy = true
        · simp [Except.bind, hp, hd, hdt, pure_run, pure, Except.pure, Act.pure]
        · cases hi : output.getProp "insights" with
          | error e => simp [Except.bind, hp, hd, hdt, hi, Act.bind, Act.lift]
          | ok ins =>
            cases hl : ins.getProp "length" with
            | error e => simp [Except.bind, hp, hd, hdt, hi, hl, Act.bind, Act.lift]
            | ok len =>
              simp [Except.bind, hp, hd, hdt, hi, hl, Act.bind, Act.lift, pure, Except.pure,
                Act.pure]

/-- C6, amended. Write `t1` for the trace after the metadata call and `t2` for
the trace after the read of `codesee.metadata.json`. A non-zero exit code gives
`true` without reading the file. After exit code 0: an unreadable file, a file
that is not valid JSON, a parsed value that is `null`, and an `insights`
property that is absent or `null` all give `true` with one warning and no
exception; a truthy `insightsDisabled` gives the sentinel; otherwise an empty
`insights` list gives `true` and a non-empty list gives `false`. In general the
result is whether the `length` of `insights` is strictly `0`, so a number in
place of the list gives `false`, without a warning. Whenever the subprocess
call returns, `needsInsights` returns `true`, `false` or the sentinel. -/
theorem needsInsights_probe (w : World) (config : Config) (t : Trace) :
    let args := needsInsightsArgs config
    let file : Option String := some "codesee.metadata.json"
    let t1 := t ++ [Event.exec "npx" args]
    let t2 := t ++ [Event.exec "npx" args, Event.readFile file]
    (∀ code, w.exec t "npx" args = .ok code → code ≠ 0 →
        needsInsights w config t = (.ok (.bool true), t1))
    ∧ (w.exec t "npx" args = .ok 0 →
        (∀ e, w.readFile t1 file = .error e →
          needsInsights w config t = (.ok (.bool true), t2 ++ [metadataWarning e]))
        ∧ (∀ text, w.readFile t1 file = .ok text →
          (∀ e, w.parse text = .error e →
            needsInsights w config t = (.ok (.bool true), t2 ++ [metadataWarning e]))
          ∧ (∀ output, w.parse text = .ok output →
            (output = .null →
              ∃ e, needsInsights w config t = (.ok (.bool true), t2 ++ [metadataWarning e]))
            ∧ (∀ d, output.getProp "insightsDisabled" = .ok d → d.truthy = true →
              needsInsights w config t = (.ok (.str INSIGHTS_DISABLED), t2))
            ∧ (∀ d, output.getProp "insightsDisabled" = .ok d → d.truthy = false →
              (output.getProp "insights" = .ok (.arr []) →
                needsInsights w config t = (.ok (.bool true), t2))
              ∧ (∀ x xs, output.getProp "insights" = .ok (.arr (x :: xs)) →
                needsInsights w config t = (.ok (.bool false), t2))
              ∧ (output.getProp "insights" = .ok .undefined
                  ∨ output.getProp "insights" = .ok .null →
                ∃ e, needsInsights w config t = (.ok (.bool true), t2 ++ [metadataWarning e]))
              ∧ (∀ n, output.getProp "insights" = .ok (.num n) →
                needsInsights w config t = (.ok (.bool false), t2))
              ∧ (∀ ins len, output.getProp "insights" = .ok ins →
                ins.getProp "length" = .ok len →
                needsInsights w config t = (.ok (.bool (len.strictEqNum 0)), t2))))))
    ∧ (∀ code, w.exec t "npx" args = .ok code →
        ∃ v t3, needsInsights w config t = (.ok v, t3)
          ∧ (v = .bool true ∨ v = .bool false ∨ v = .str INSIGHTS_DISABLED)) := by
  intro args file t1 t2
  have hnz : ∀ code, w.exec t "npx" args = .ok code → code ≠ 0 →
      needsInsights w config t = (.ok (.bool true), t1) := by
    intro code hx hc
    simp [needsInsights, bind, Act.bind, execCall, args, hx, hc, pure_run, t1]
  refine ⟨hnz, ?_, ?_⟩
  · intro hx
    have hz := needsInsights_run_zero w config t hx
    refine ⟨?_, ?_⟩
    · intro e hr
      rw [hz]
      simp [t1, args, file] at hr
      simp [hr, bind, Except.bind, t2, args, file]
    · intro text hr
      simp only [t1, args, file] at hr
      refine ⟨?_, ?_⟩
      · intro e hp
        rw [hz]
        simp [hr, hp, bind, Except.bind, t2, args, file]
      · intro output hp
        have G0 : ∀ e, output.getProp "insightsDisabled" = .error e →
            needsInsights w config t = (.ok (.bool true), t2 ++ [metadataWarning e]) := by
          intro e hd
          rw [hz]
          simp [hr, hp, hd, bind, Except.bind, t2, args, file]
        refine ⟨?_, ?_, ?_⟩
        · intro ho
          subst ho
          exact ⟨_, G0 _ rfl⟩
        · intro d hd hdt
          rw [hz]
          simp [hr, hp, hd, hdt, bind, Except.bind, t2, args, file, pure, Except.pure]
        · intro d hd hdt
          have G1 : ∀ ins len, output.getProp "insights" = .ok ins →
              ins.getProp "length" = .ok len →
              needsInsights w config t = (.ok (.bool (len.strictEqNum 0)), t2) := by
            intro ins len hi hl
            rw [hz]
            simp [hr, hp, hd, hdt, hi, hl, bind, Except.bind, t2, args, file, pure,
              Except.pure]
          have G2 : ∀ ins e, output.getProp "insights" = .ok ins →
              ins.getProp "length" = .error e →
              needsInsights w config t = (.ok (.bool true), t2 ++ [metadataWarning e]) := by
            intro ins e hi hl
            rw [hz]
            simp [hr, hp, hd, hdt, hi, hl, bind, Except.bind, t2, args, file]
          refine ⟨?_, ?_, ?_, ?_, G1⟩
          · intro hi
            exact G1 _ _ hi rfl
          · intro x xs hi
            have := G1 _ _ hi rfl
            simpa [JSVal.strictEqNum] using this
          · rintro (hi | hi)
            · exact ⟨_, G2 _ _ hi rfl⟩
            · exact ⟨_, G2 _ _ hi rfl⟩
          · intro n hi
            exact G1 _ _ hi rfl
  · intro code hx
    by_cases hc : code = 0
    · subst hc
      have hz := needsInsights_run_zero w config t hx
      rw [hz]
      split
      · rename_i v hv
        refine ⟨v, _, rfl, ?_⟩
        simp only [bind, Except.bind, pure, Except.pure] at hv
        split at hv
        · cases hv
        · split at hv
          · cases hv
          · split at hv
            · cases hv
            · split at hv
              · cases hv
                exact Or.inr (Or.inr rfl)
              · split at hv
                · cases hv
                · split at hv
                  · cases hv
                  · cases hv
                    rename_i len _
                    cases hb : len.strictEqNum 0
                    · exact Or.inr (Or.inl rfl)
                    · exact Or.inl rfl
      · exact ⟨_, _, rfl, Or.inl rfl⟩
    · exact ⟨_, _, hnz code hx hc, Or.inl rfl⟩

/-- Witness for C6: exit code 0 and the metadata `{"insights":[]}`. -/
theorem needsInsights_probe_witness :
    needsInsights (sampleWorld "\x7b\"insights\":[]\x7d") sampleConfig [] =
      (.ok (.bool true),
        [.exec "npx" (needsInsightsArgs sampleConfig),
         .readFile (some "codesee.metadata.json")]) :=
  ((((((needsInsights_probe (sampleWorld "\x7b\"insights\":[]\x7d") sampleConfig []).2.1
    rfl).2 _ rfl).2 _ rfl).2.2 .undefined rfl rfl).1 rfl)

/-- C6 as stated fails: the metadata `{"insights":5}` has no insights list, and
the probe answers `false`, without a warning. -/
theorem needsInsights_number_in_place_of_list :
    needsInsights (sampleWorld "\x7b\"insights\":5\x7d") sampleConfig [] =
      (.ok (.bool false),
        [.exec "npx" (needsInsightsArgs sampleConfig),
         .readFile (some "codesee.metadata.json")]) :=
  rfl

theorem insights_run_pull_request (w : World) (data : Data) (t : Trace)
    (h : isPullRequestEvent data.githubEventName = true) :
    insights w data t =
      (.ok (), t ++ [.info "Running on a pull request so skipping insight collection"]) := by
  simp [insights, h, emit]

theorem insights_run_other (w : World) (data : Data) (t : Trace)
    (h : isPullRequestEvent data.githubEventName = false) :
    insights w data t =
      match needsInsights w data.config t with
      | (.ok v, t1) =>
        if v.strictEqStr INSIGHTS_DISABLED then (.ok (), t1)
        else (w.insightsRun t1 data.config, t1 ++ [.insightsRun])
      | (.error e, t1) => (.error e, t1) := by
  simp only [insights, h, bind, Act.bind, Bool.false_eq_true, if_false]
  rcases needsInsights w data.config t with ⟨r, t1⟩
  cases r with
  | error e => rfl
  | ok v =>
    simp only
    split <;> simp [pure_run]

theorem needsInsights_trace_head (w : World) (config : Config) (t : Trace) :
    ∃ rest, (needsInsights w config t).2 = t ++ .exec "npx" (needsInsightsArgs config) :: rest
      ∧ ∀ e ∈ rest, notInsightsRun e := by
  simp only [needsInsights, bind, Act.bind, execCall]
  cases hx : w.exec t "npx" (needsInsightsArgs config) with
  | error e => exact ⟨[], by simp, by simp⟩
  | ok code =>
    simp only
    have hrest : Emits notInsightsRun (if code ≠ 0 then (pure (JSVal.bool true) : Act JSVal)
        else Act.tryCatch
          (do
            let text ← readFile w (some "codesee.metadata.json")
            let output ← Act.lift (w.parse text)
            let disabled ← Act.lift (output.getProp "insightsDisabled")
            if disabled.truthy then
              pure (.str INSIGHTS_DISABLED)
            else do
              let insights ← Act.lift (output.getProp "insights")
              let len ← Act.lift (insights.getProp "length")
              pure (.bool (len.strictEqNum 0)))
          (fun e => do
            emit (metadataWarning e)
            pure (.bool true))) := by
      refine Emits.ite _ _ _ _ (Emits.pure _ _) ?_
      refine Emits.tryCatch _ _ _ ?_ (fun e => ?_)
      · refine Emits.bind _ _ _ (Emits.readFile _ _ _ trivial) (fun text => ?_)
        refine Emits.bind _ _ _ (Emits.lift _ _) (fun output => ?_)
        refine Emits.bind _ _ _ (Emits.lift _ _) (fun disabled => ?_)
        refine Emits.ite _ _ _ _ (Emits.pure _ _) ?_
        refine Emits.bind _ _ _ (Emits.lift _ _) (fun ins => ?_)
        refine Emits.bind _ _ _ (Emits.lift _ _) (fun len => ?_)
        exact Emits.pure _ _
      · exact Emits.bind _ _ _ (Emits.emit _ _ trivial) (fun _ => Emits.pure _ _)
    obtain ⟨l, hl, hP⟩ := hrest (t ++ [Event.exec "npx" (needsInsightsArgs config)])
    exact ⟨l, by simpa [List.append_assoc] using hl, hP⟩

/-- C7. For a pull request event (event name `pull_request` or
`pull_request_target`) `insights` only logs that it skips: no
subprocess call (so no metadata probe) and no call of the insights collection.
For every other event the first event is the metadata call of the probe; when
the probe returns the sentinel `INSIGHTS_DISABLED`, `insights` returns without
calling the collection; when the probe returns `true`, the collection is called
next, and its outcome is the outcome of `insights`. -/
theorem insights_skips_pull_requests (w : World) (data : Data) (t : Trace) :
    (isPullRequestEvent data.githubEventName = true →
      insights w data t =
        (.ok (), t ++ [.info "Running on a pull request so skipping insight collection"])
      ∧ execCalls (emitted (insights w data) t) = []
      ∧ ∀ e ∈ emitted (insights w data) t, notInsightsRun e)
    ∧ (isPullRequestEvent data.githubEventName = false →
      (∃ rest, (insights w data t).2
          = t ++ .exec "npx" (needsInsightsArgs data.config) :: rest)
      ∧ (∀ t1, needsInsights w data.config t = (.ok (.str INSIGHTS_DISABLED), t1) →
          insights w data t = (.ok (), t1)
          ∧ ∀ e ∈ emitted (insights w data) t, notInsightsRun e)
      ∧ (∀ t1, needsInsights w data.config t = (.ok (.bool true), t1) →
          insights w data t = (w.insightsRun t1 data.config, t1 ++ [.insightsRun])))
    ∧ (isPullRequestEvent data.githubEventName = true ↔
        (data.githubEventName = some "pull_request"
          ∨ data.githubEventName = some "pull_request_target")) := by
  refine ⟨?_, ?_, isPullRequestEvent_iff _⟩
  · intro h
    have hr := insights_run_pull_request w data t h
    refine ⟨hr, ?_, ?_⟩
    · rw [emitted_of_run _ _ _ _ hr]
      rfl
    · rw [emitted_of_run _ _ _ _ hr]
      intro e he
      simp only [List.mem_singleton] at he
      subst he
      trivial
  · intro h
    have hr := insights_run_other w data t h
    obtain ⟨rest, hrest, hP⟩ := needsInsights_trace_head w data.config t
    refine ⟨?_, ?_, ?_⟩
    · rw [hr]
      rcases hn : needsInsights w data.config t with ⟨r, t1⟩
      rw [hn] at hrest
      simp only at hrest
      subst hrest
      cases r with
      | error e => exact ⟨rest, rfl⟩
      | ok v =>
        simp only
        split
        · exact ⟨rest, rfl⟩
        · exact ⟨rest ++ [.insightsRun], by simp⟩
    · intro t1 hn
      have hi : insights w data t = (.ok (), t1) := by
        rw [hr, hn]
        simp [JSVal.strictEqStr]
      refine ⟨hi, ?_⟩
      rw [hn] at hrest
      simp only at hrest
      subst hrest
      rw [emitted_of_run _ _ _ _ hi]
      intro e he
      rcases List.mem_cons.1 he with h1 | h1
      · subst h1
        trivial
      · exact hP e h1
    · intro t1 hn
      rw [hr, hn]
      simp [JSVal.strictEqStr]

/-- Witness for C7: a push whose metadata file holds `{}`. -/
theorem insights_skips_pull_requests_witness :
    insights (sampleWorld "\x7b\x7d") samplePushData [] =
      (.ok (),
        [.exec "npx" (needsInsightsArgs sampleConfig),
         .readFile (some "codesee.metadata.json"),
         metadataWarning
           (.typeError "Cannot read properties of undefined (reading length)"),
         .insightsRun]) :=
  ((insights_skips_pull_requests (sampleWorld "\x7b\x7d") samplePushData []).2.1 rfl).2.2 _ rfl

/-- C8, at the failing input. With no `languages` variable `getConfig` resolves
the language filter to the string `"{}"`, which is not the empty object; a
variable that holds JSON is parsed, and malformed JSON makes `getConfig`
throw. -/
theorem getConfig_languages_fallback_is_string :
    (getConfig sampleParse id (sampleEnv none (some "token") none)).map
        (fun c => c.languages) = .ok (.str "\x7b\x7d")
    ∧ JSVal.str "\x7b\x7d" ≠ JSVal.obj []
    ∧ (getConfig sampleParse id
        (sampleEnv none (some "token") (some "\x7b\"python\":true\x7d"))).map
        (fun c => c.languages) = .ok (.obj [("python", .bool true)])
    ∧ (getConfig sampleParse id (sampleEnv none (some "token") (some "python"))).map
        (fun c => c.languages) = .error (.syntaxError "Unexpected token in JSON") := by
  refine ⟨rfl, ?_, rfl, rfl⟩
  intro h
  cases h

/-- C9 as stated fails: a configuration resolved with no `languages` variable
still passes the `--languages` flag. -/
theorem languages_flag_without_variable :
    (getConfig sampleParse id (sampleEnv none (some "token") none)).map
        (fun c => runCodeseeMapArgs (sampleWorld "") c []) =
      .ok ["codesee@latest", "map", "-o", "codesee.map.json", "-a", "token",
        "--languages", "\"\x7b\x7d\"", "--repo", "https://github.com/octocat/Hello-World",
        "/github/workspace"] :=
  rfl

theorem getConfig_webpack_sentinel (parse : String → Except JSError JSVal)
    (ins : Config → Config) (env : Env) (config : Config)
    (hins : ∀ c, (ins c).webpackConfigPath = c.webpackConfigPath)
    (hw : env "webpack_config_path" = some "__NULL__")
    (hc : getConfig parse ins env = .ok config) : config.webpackConfigPath = none := by
  unfold getConfig at hc
  by_cases hl : strTruthy (env "languages") = true
  · cases hp : parse ((env "languages").getD "") with
    | error e => simp [hl, hp, bind, Except.bind] at hc
    | ok v =>
      simp [hl, hp, bind, Except.bind, pure, Except.pure] at hc
      rw [← hc, hins]
      simp [hw]
  · simp [hl, bind, Except.bind, pure, Except.pure] at hc
    rw [← hc, hins]
    simp [hw]

theorem mem_ite_pair (c : Prop) [Decidable c] (x a b : String) :
    x ∈ (if c then [a, b] else []) ↔ c ∧ (x = a ∨ x = b) := by
  split <;> simp_all

theorem mem_ite_single (c : Prop) [Decidable c] (x a : String) :
    x ∈ (if c then [a] else []) ↔ c ∧ x = a := by
  split <;> simp_all

theorem mem_runCodeseeMapArgs (w : World) (config : Config) (excludeLangs : List String)
    (x : String) :
    x ∈ runCodeseeMapArgs w config excludeLangs ↔
      (x = "codesee@latest" ∨ x = "map" ∨ x = "-o" ∨ x = "codesee.map.json")
      ∨ (excludeLangs.length > 0 ∧ (x = "-x" ∨ x = ",".intercalate excludeLangs))
      ∨ (strTruthy config.webpackConfigPath = true
          ∧ (x = "-w" ∨ x = jsStr config.webpackConfigPath))
      ∨ (config.supportTypescript = true ∧ x = "--typescript")
      ∨ (strTruthy config.apiToken = true ∧ (x = "-a" ∨ x = jsStr config.apiToken))
      ∨ (config.languages.truthy = true
          ∧ (x = "--languages" ∨ x = w.stringify config.languages))
      ∨ (strTruthy config.codeseeUrl = true ∧ (x = "--url" ∨ x = jsStr config.codeseeUrl))
      ∨ (x = "--repo" ∨ x = config.repoOrigin) ∨ x = w.cwd := by
  simp only [runCodeseeMapArgs, List.mem_append, mem_ite_pair, mem_ite_single, List.mem_cons,
    List.mem_singleton, List.not_mem_nil, or_false, or_assoc]

theorem mem_argValues (w : World) (config : Config) (excludeLangs : List String)
    (x : String) :
    x ∈ argValues w config excludeLangs ↔
      (excludeLangs.length > 0 ∧ x = ",".intercalate excludeLangs)
      ∨ (strTruthy config.webpackConfigPath = true ∧ x = jsStr config.webpackConfigPath)
      ∨ (strTruthy config.apiToken = true ∧ x = jsStr config.apiToken)
      ∨ (config.languages.truthy = true ∧ x = w.stringify config.languages)
      ∨ (strTruthy config.codeseeUrl = true ∧ x = jsStr config.codeseeUrl)
      ∨ x = config.repoOrigin ∨ x = w.cwd := by
  simp only [argValues, List.mem_append, mem_ite_single, List.mem_cons,
    List.mem_singleton, List.not_mem_nil, or_false, or_assoc]

theorem flag_mem_args (w : World) (config : Config) (excludeLangs : List String)
    (flag : String) (c : Prop)
    (hv : flag ∉ argValues w config excludeLangs)
    (hm : flag ∈ runCodeseeMapArgs w config excludeLangs)
    (hfix : flag ≠ "codesee@latest" ∧ flag ≠ "map" ∧ flag ≠ "-o" ∧ flag ≠ "codesee.map.json"
      ∧ flag ≠ "--repo" ∧ flag ≠ "-x")
    (h1 : strTruthy config.webpackConfigPath = true → flag = "-w" → c)
    (h2 : config.supportTypescript = true → flag = "--typescript" → c)
    (h3 : strTruthy config.apiToken = true → flag = "-a" → c)
    (h4 : config.languages.truthy = true → flag = "--languages" → c)
    (h5 : strTruthy config.codeseeUrl = true → flag = "--url" → c) : c := by
  rw [mem_argValues] at hv
  rw [mem_runCodeseeMapArgs] at hm
  obtain ⟨f1, f2, f3, f4, f5, f6⟩ := hfix
  rcases hm with (h | h | h | h) | ⟨hc, h | h⟩ | ⟨hc, h | h⟩ | ⟨hc, h⟩ | ⟨hc, h | h⟩
      | ⟨hc, h | h⟩ | ⟨hc, h | h⟩ | (h | h) | h
  · exact absurd h f1
  · exact absurd h f2
  · exact absurd h f3
  · exact absurd h f4
  · exact absurd h f6
  · exact absurd (Or.inl ⟨hc, h⟩) hv
  · exact h1 hc h
  · exact absurd (Or.inr (Or.inl ⟨hc, h⟩)) hv
  · exact h2 hc h
  · exact h3 hc h
  · exact absurd (Or.inr (Or.inr (Or.inl ⟨hc, h⟩))) hv
  · exact h4 hc h
  · exact absurd (Or.inr (Or.inr (Or.inr (Or.inl ⟨hc, h⟩)))) hv
  · exact h5 hc h
  · exact absurd (Or.inr (Or.inr (Or.inr (Or.inr (Or.inl ⟨hc, h⟩))))) hv
  · exact absurd h f5
  · exact absurd (Or.inr (Or.inr (Or.inr (Or.inr (Or.inr (Or.inl h)))))) hv
  · exact absurd (Or.inr (Or.inr (Or.inr (Or.inr (Or.inr (Or.inr h)))))) hv

theorem args_flags_only_if_set (w : World) (config : Config) (excludeLangs : List String)
    (h : ∀ flag ∈ ["-w", "--typescript", "-a", "--languages", "--url"],
      flag ∉ argValues w config excludeLangs) :
    ("-w" ∈ runCodeseeMapArgs w config excludeLangs → strTruthy config.webpackConfigPath = true)
    ∧ ("--typescript" ∈ runCodeseeMapArgs w config excludeLangs →
        config.supportTypescript = true)
    ∧ ("-a" ∈ runCodeseeMapArgs w config excludeLangs → strTruthy config.apiToken = true)
    ∧ ("--languages" ∈ runCodeseeMapArgs w config excludeLangs →
        config.languages.truthy = true)
    ∧ ("--url" ∈ runCodeseeMapArgs w config excludeLangs →
        strTruthy config.codeseeUrl = true) := by
  refine ⟨?_, ?_, ?_, ?_, ?_⟩
  · intro hm
    refine flag_mem_args w config excludeLangs "-w" _ (h _ (by simp)) hm (by decide)
      (fun hc _ => hc) ?_ ?_ ?_ ?_ <;> intro _ hf <;> exact absurd hf (by decide)
  · intro hm
    refine flag_mem_args w config excludeLangs "--typescript" _ (h _ (by simp)) hm (by decide)
      ?_ (fun hc _ => hc) ?_ ?_ ?_ <;> intro _ hf <;> exact absurd hf (by decide)
  · intro hm
    refine flag_mem_args w config excludeLangs "-a" _ (h _ (by simp)) hm (by decide)
      ?_ ?_ (fun hc _ => hc) ?_ ?_ <;> intro _ hf <;> exact absurd hf (by decide)
  · intro hm
    refine flag_mem_args w config excludeLangs "--languages" _ (h _ (by simp)) hm (by decide)
      ?_ ?_ ?_ (fun hc _ => hc) ?_ <;> intro _ hf <;> exact absurd hf (by decide)
  · intro hm
    refine flag_mem_args w config excludeLangs "--url" _ (h _ (by simp)) hm (by decide)
      ?_ ?_ ?_ ?_ (fun hc _ => hc) <;> intro _ hf <;> exact absurd hf (by decide)

theorem infix_append_right_of (l a b : List String) (h : l <:+: a) : l <:+: a ++ b :=
  h.trans (List.prefix_append a b).isInfix

theorem infix_after (l a : List String) : l <:+: a ++ l :=
  (List.suffix_append a l).isInfix

/-- C9, amended. For every configuration and exclusion list the arguments of
`runCodeseeMap` start with `codesee@latest map -o codesee.map.json` and end with
`--repo`, the repository origin and the working directory. A flag is passed
together with its value when its setting is truthy: `-w <path>` for the bundler
configuration path, `--typescript` for the typescript flag, `-a <token>` for
the credential, `--languages <json>` for a truthy language filter value and
`--url <url>` for the service URL. Conversely, when none of the passed values
is itself spelled like one of these flags, each flag occurs only if its
setting is truthy. A `webpack_config_path` of `__NULL__` is resolved by
`getConfig` to no path, when the insights configuration does not replace it. -/
theorem runCodeseeMap_arguments (w : World) (config : Config) (excludeLangs : List String) :
    ["codesee@latest", "map", "-o", "codesee.map.json"]
        <+: runCodeseeMapArgs w config excludeLangs
    ∧ ["--repo", config.repoOrigin, w.cwd] <:+ runCodeseeMapArgs w config excludeLangs
    ∧ (strTruthy config.webpackConfigPath = true →
        ["-w", jsStr config.webpackConfigPath] <:+: runCodeseeMapArgs w config excludeLangs)
    ∧ (config.supportTypescript = true →
        "--typescript" ∈ runCodeseeMapArgs w config excludeLangs)
    ∧ (strTruthy config.apiToken = true →
        ["-a", jsStr config.apiToken] <:+: runCodeseeMapArgs w config excludeLangs)
    ∧ (config.languages.truthy = true →
        ["--languages", w.stringify config.languages]
          <:+: runCodeseeMapArgs w config excludeLangs)
    ∧ (strTruthy config.codeseeUrl = true →
        ["--url", jsStr config.codeseeUrl] <:+: runCodeseeMapArgs w config excludeLangs)
    ∧ ((∀ flag ∈ ["-w", "--typescript", "-a", "--languages", "--url"],
          flag ∉ argValues w config excludeLangs) →
        ("-w" ∈ runCodeseeMapArgs w config excludeLangs →
          strTruthy config.webpackConfigPath = true)
        ∧ ("--typescript" ∈ runCodeseeMapArgs w config excludeLangs →
          config.supportTypescript = true)
        ∧ ("-a" ∈ runCodeseeMapArgs w config excludeLangs →
          strTruthy config.apiToken = true)
        ∧ ("--languages" ∈ runCodeseeMapArgs w config excludeLangs →
          config.languages.truthy = true)
        ∧ ("--url" ∈ runCodeseeMapArgs w config excludeLangs →
          strTruthy config.codeseeUrl = true))
    ∧ (∀ (parse : String → Except JSError JSVal) (ins : Config → Config) (env : Env)
        (resolved : Config), (∀ c, (ins c).webpackConfigPath = c.webpackConfigPath) →
        env "webpack_config_path" = some "__NULL__" →
        getConfig parse ins env = .ok resolved →
        strTruthy resolved.webpackConfigPath = false) := by
  refine ⟨?_, ?_, ?_, ?_, ?_, ?_, ?_, args_flags_only_if_set w config excludeLangs, ?_⟩
  · simp only [runCodeseeMapArgs, List.append_assoc]
    exact List.prefix_append _ _
  · simp only [runCodeseeMapArgs]
    exact ⟨_, (List.append_assoc _ ["--repo", config.repoOrigin] [w.cwd]).symm⟩
  · intro h
    simp only [runCodeseeMapArgs, h, if_true]
    iterate 6 apply infix_append_right_of
    exact infix_after _ _
  · intro h
    rw [mem_runCodeseeMapArgs]
    exact Or.inr (Or.inr (Or.inr (Or.inl ⟨h, rfl⟩)))
  · intro h
    simp only [runCodeseeMapArgs, h, if_true]
    iterate 4 apply infix_append_right_of
    exact infix_after _ _
  · intro h
    simp only [runCodeseeMapArgs, h, if_true]
    iterate 3 apply infix_append_right_of
    exact infix_after _ _
  · intro h
    simp only [runCodeseeMapArgs, h, if_true]
    iterate 2 apply infix_append_right_of
    exact infix_after _ _
  · intro parse ins env resolved hins hw hc
    rw [getConfig_webpack_sentinel parse ins env resolved hins hw hc]
    rfl

/-- Witness for C9: the sample configuration, which has a credential and a
language filter and no other optional setting. -/
theorem runCodeseeMap_arguments_witness :
    ["-a", "token"] <:+: runCodeseeMapArgs (sampleWorld "") sampleConfig []
    ∧ ("-w" ∈ runCodeseeMapArgs (sampleWorld "") sampleConfig []
        → strTruthy sampleConfig.webpackConfigPath = true) :=
  ⟨(runCodeseeMap_arguments (sampleWorld "") sampleConfig []).2.2.2.2.1 rfl,
   ((runCodeseeMap_arguments (sampleWorld "") sampleConfig []).2.2.2.2.2.2.2.1
    (by decide)).1⟩

theorem optStr_ne_of_ne (o : Option String) (flag : String) (h : o ≠ some flag) :
    JSVal.str flag ≠ optStr o := by
  cases o with
  | none => simp [optStr]
  | some s =>
    simp only [optStr, ne_eq, JSVal.str.injEq]
    intro hs
    exact h (by rw [hs])

theorem uploadArgs_no_flag (config : Config) (flag : String)
    (hfix : flag ≠ "codesee@latest" ∧ flag ≠ "upload" ∧ flag ≠ "--type" ∧ flag ≠ "map"
      ∧ flag ≠ "--repo" ∧ flag ≠ "-a" ∧ flag ≠ "-f" ∧ flag ≠ "codesee.map.json"
      ∧ flag ≠ "--url")
    (h1 : config.repoOrigin ≠ flag) (h2 : config.apiToken ≠ some flag)
    (h3 : config.githubRef ≠ some flag) (h4 : config.codeseeUrl ≠ some flag) :
    JSVal.str flag ∉
      ([.str "codesee@latest", .str "upload", .str "--type", .str "map",
        .str "--repo", .str config.repoOrigin, .str "-a", optStr config.apiToken]
      ++ (if strTruthy config.githubRef then [.str "-f", optStr config.githubRef] else [])
      ++ [.str "codesee.map.json"]
      ++ (if strTruthy config.codeseeUrl then [.str "--url", optStr config.codeseeUrl]
          else []) : List JSVal) := by
  obtain ⟨f1, f2, f3, f4, f5, f6, f7, f8, f9⟩ := hfix
  have e2 := optStr_ne_of_ne _ _ h2
  have e3 := optStr_ne_of_ne _ _ h3
  have e4 := optStr_ne_of_ne _ _ h4
  have e1 : flag ≠ config.repoOrigin := fun h => h1 h.symm
  split_ifs <;>
    simp [f1, f2, f3, f4, f5, f6, f7, f8, f9, e1, e2, e3, e4]

/-- C10. The arguments of `runCodeseeMapUpload` start with the upload
subcommand `codesee@latest upload --type map`, `--repo` with the repository
origin and `-a` with the credential (`uploadHead`, which ends with the head
ref when one is set) and contain the map file `codesee.map.json`. For an event
that is not a pull request event the call never throws and the map file
follows `uploadHead` directly, so none of `-b`, `-s`, `-p` is passed (none
occurs at all unless the origin, the credential, the head ref or the service
URL is spelled so). For a pull request event, if the call returns arguments
then `-b <base ref>`, `-s <payload.pull_request.base.sha>` and
`-p <payload.number>` stand, in this order, between `uploadHead` and the map
file, and the call does return them whenever the payload has these fields.
The returned arguments are the ones handed to `npx`. The pull request events
are the event names `pull_request` and `pull_request_target`. -/
theorem runCodeseeMapUpload_arguments (w : World) (config : Config)
    (githubEventName : Option String) (githubEventData : JSVal) :
    (isPullRequestEvent githubEventName = false →
      runCodeseeMapUploadArgs w config githubEventName githubEventData =
        .ok (uploadHead config ++ [.str "codesee.map.json"] ++ uploadTail config)
      ∧ ((∀ flag ∈ ["-b", "-s", "-p"], config.repoOrigin ≠ flag ∧ config.apiToken ≠ some flag
            ∧ config.githubRef ≠ some flag ∧ config.codeseeUrl ≠ some flag) →
          ∀ flag ∈ ["-b", "-s", "-p"], JSVal.str flag ∉
            uploadHead config ++ [.str "codesee.map.json"] ++ uploadTail config))
    ∧ (isPullRequestEvent githubEventName = true →
      (∀ args, runCodeseeMapUploadArgs w config githubEventName githubEventData = .ok args →
        ∃ pr base sha number numberString,
          githubEventData.getProp "pull_request" = .ok pr ∧ pr.getProp "base" = .ok base
          ∧ base.getProp "sha" = .ok sha ∧ githubEventData.getProp "number" = .ok number
          ∧ number.toStringCall w.objToString = .ok numberString
          ∧ args = uploadHead config
              ++ [.str "-b", optStr config.githubBaseRef, .str "-s", sha,
                  .str "-p", .str numberString]
              ++ [.str "codesee.map.json"] ++ uploadTail config)
      ∧ (∀ pr base sha number numberString,
          githubEventData.getProp "pull_request" = .ok pr → pr.getProp "base" = .ok base →
          base.getProp "sha" = .ok sha → githubEventData.getProp "number" = .ok number →
          number.toStringCall w.objToString = .ok numberString →
          runCodeseeMapUploadArgs w config githubEventName githubEventData =
            .ok (uploadHead config
              ++ [.str "-b", optStr config.githubBaseRef, .str "-s", sha,
                  .str "-p", .str numberString]
              ++ [.str "codesee.map.json"] ++ uploadTail config)))
    ∧ (∀ args t, runCodeseeMapUploadArgs w config githubEventName githubEventData = .ok args →
        runCodeseeMapUpload w config githubEventName githubEventData t =
          (w.exec t "npx" args, t ++ [.exec "npx" args]))
    ∧ (isPullRequestEvent githubEventName = true ↔
        (githubEventName = some "pull_request"
          ∨ githubEventName = some "pull_request_target")) := by
  refine ⟨?_, ?_, ?_, isPullRequestEvent_iff _⟩
  · intro hp
    refine ⟨?_, ?_⟩
    · simp [runCodeseeMapUploadArgs, hp, uploadHead, uploadTail, bind, Except.bind, pure,
        Except.pure]
    · intro h flag hf
      obtain ⟨h1, h2, h3, h4⟩ := h flag hf
      have hfix : flag ≠ "codesee@latest" ∧ flag ≠ "upload" ∧ flag ≠ "--type" ∧ flag ≠ "map"
          ∧ flag ≠ "--repo" ∧ flag ≠ "-a" ∧ flag ≠ "-f" ∧ flag ≠ "codesee.map.json"
          ∧ flag ≠ "--url" := by
        simp only [List.mem_cons, List.mem_singleton, List.not_mem_nil, or_false] at hf
        rcases hf with rfl | rfl | rfl <;> decide
      exact uploadArgs_no_flag config flag hfix h1 h2 h3 h4
  · intro hp
    have key : ∀ pr base sha number numberString,
        githubEventData.getProp "pull_request" = .ok pr → pr.getProp "base" = .ok base →
        base.getProp "sha" = .ok sha → githubEventData.getProp "number" = .ok number →
        number.toStringCall w.objToString = .ok numberString →
        runCodeseeMapUploadArgs w config githubEventName githubEventData =
          .ok (uploadHead config
            ++ [.str "-b", optStr config.githubBaseRef, .str "-s", sha,
                .str "-p", .str numberString]
            ++ [.str "codesee.map.json"] ++ uploadTail config) := by
      intro pr base sha number numberString h1 h2 h3 h4 h5
      simp [runCodeseeMapUploadArgs, hp, h1, h2, h3, h4, h5, uploadHead, uploadTail, bind,
        Except.bind, pure, Except.pure]
    refine ⟨?_, key⟩
    intro args ha
    cases h1 : githubEventData.getProp "pull_request" with
    | error e => simp [runCodeseeMapUploadArgs, hp, h1, bind, Except.bind] at ha
    | ok pr =>
      cases h2 : pr.getProp "base" with
      | error e => simp [runCodeseeMapUploadArgs, hp, h1, h2, bind, Except.bind] at ha
      | ok base =>
        cases h3 : base.getProp "sha" with
        | error e => simp [runCodeseeMapUploadArgs, hp, h1, h2, h3, bind, Except.bind] at ha
        | ok sha =>
          cases h4 : githubEventData.getProp "number" with
          | error e =>
            simp [runCodeseeMapUploadArgs, hp, h1, h2, h3, h4, bind, Except.bind] at ha
          | ok number =>
            cases h5 : number.toStringCall w.objToString with
            | error e =>
              simp [runCodeseeMapUploadArgs, hp, h1, h2, h3, h4, h5, bind, Except.bind] at ha
            | ok numberString =>
              have hk := key pr base sha number numberString h1 h2 h3 h4 h5
              rw [hk] at ha
              cases ha
              exact ⟨pr, base, sha, number, numberString, rfl, h2, h3, rfl, h5, rfl⟩
  · intro args t ha
    simp [runCodeseeMapUpload, ha, bind, Act.bind, Act.lift, execCall]

/-- Witness for C10: the upload of the sample pull request from a fork. -/
theorem runCodeseeMapUpload_arguments_witness :
    runCodeseeMapUploadArgs (sampleWorld "") sampleConfig (some "pull_request_target")
        forkedPayload =
      .ok [.str "codesee@latest", .str "upload", .str "--type", .str "map",
        .str "--repo", .str "https://github.com/octocat/Hello-World", .str "-a",
        .str "token", .str "-f", .str "feature", .str "-b", .str "main",
        .str "-s", .str "0a1b2c", .str "-p", .str "7", .str "codesee.map.json"] :=
  ((runCodeseeMapUpload_arguments (sampleWorld "") sampleConfig (some "pull_request_target")
    forkedPayload).2.1 rfl).2 _ _ _ _ _ rfl rfl rfl rfl rfl

end CodeseeAction
